import Mathlib

/-!
Shallow embedding of the order & inventory transaction engine of
`src/main.py` (restaurant POS desktop application).

Conventions of the embedding:
* SQLite tables become Lean lists of rows (structures); `SELECT ... WHERE id=?`
  followed by `res[0]` becomes `List.find?`; `UPDATE ... WHERE id=?` becomes a
  `List.map` that rewrites the matching rows; `INSERT` appends.
* Python ints are `Int` where the code can make them negative (stock, price,
  totals) and `Nat` for quantities, which every code path of the program
  creates at ≥ 1 (cart `add` starts at 1, decrements delete the line at ≤ 0).
* A nullable TEXT column is `Option String`; Python truthiness of a fetched
  code (`if current:`) is `some c` with `c ≠ ""`.
* Timestamps are stored by the program as fixed-width strings
  `"YYYY-MM-DD HH:MM:SS"` and compared by SQLite as strings; since the
  rendering is fixed-width zero-padded, string comparison coincides with
  lexicographic comparison of the numeric fields, which is how `DateTime`
  is compared here.
* `db.execute` commits each single statement on success and rolls back only
  the failing statement on error (main.py lines 579-587); a multi-statement
  "transaction" made of `db.execute` calls is therefore a sequence of
  individually committed writes.  `runOps` models this with an optional
  failure index: all writes before the failing one remain applied.
* Foreign keys are enforced (`PRAGMA foreign_keys = ON`, line 307):
  `opFails` models the `sqlite3.IntegrityError` an order-line INSERT
  raises when its item id has no items row, the one commit-phase
  statement that can raise on its own.
-/

namespace RenusPOS

/-- Order status enumeration, from `STATUSES` in main.py line 45. -/
def STATUSES : List String := ["Pending", "Preparing", "Ready", "Completed"]

/-- A timestamp as rendered by `datetime.strftime("%Y-%m-%d %H:%M:%S")`.
The program compares the rendered fixed-width strings; comparing them
lexicographically is the same as comparing the numeric fields
lexicographically. -/
structure DateTime where
  year : Nat
  month : Nat
  day : Nat
  hour : Nat
  minute : Nat
  second : Nat
deriving DecidableEq

/-- Field list of a timestamp, in comparison order. -/
def DateTime.key (t : DateTime) : List Nat :=
  [t.year, t.month, t.day, t.hour, t.minute, t.second]

/-- Lexicographic strict comparison of equal-length Nat lists (the order
SQLite's string comparison induces on the fixed-width renderings). -/
def natListLt : List Nat → List Nat → Bool
  | [], [] => false
  | [], _ :: _ => true
  | _ :: _, [] => false
  | a :: as, b :: bs => if a < b then true else if b < a then false else natListLt as bs

/-- Strict `date < date` as the stored strings compare. -/
def dtLt (a b : DateTime) : Bool := natListLt a.key b.key

/-- Non-strict `date >= start` as the stored strings compare. -/
def dtLe (a b : DateTime) : Bool := !(natListLt b.key a.key)

/-- A row of the `items` table (id, name, price, stock, item_code);
`category` and `image_path` are never read by the order engine and are
omitted. -/
structure Item where
  id : Nat
  name : String
  price : Int
  stock : Int
  code : Option String
deriving DecidableEq

/-- A row of the `orders` table (id, customer_id, date, status, total,
order_code); `notes` is never touched by the claims' operations. -/
structure Order where
  id : Nat
  customerId : Nat
  date : DateTime
  status : String
  total : Int
  code : Option String
deriving DecidableEq

/-- A row of the `order_items` table. -/
structure OrderLine where
  orderId : Nat
  itemId : Nat
  qty : Nat
  subtotal : Int
deriving DecidableEq

/-- The persistent database state touched by the order engine.  The
`customers` table is only ever referenced through an already-parsed
customer id, so it is not part of the state. -/
structure DBState where
  items : List Item
  orders : List Order
  orderLines : List OrderLine
deriving DecidableEq

/-- One cart entry's payload: `{"name": ..., "price": ..., "qty": ...}`
(the `"stock"` snapshot stored by `add_cart` is never read again and is
omitted). -/
structure CartData where
  name : String
  price : Int
  qty : Nat
deriving DecidableEq

/-- The cart: a Python dict from item id to entry, embedded as an
association list in insertion order with (in every state the program
creates) pairwise distinct keys. -/
abbrev Cart := List (Nat × CartData)

/-- Dict read: `d.get(k)`. -/
def dictGet (c : List (Nat × CartData)) (k : Nat) : Option CartData :=
  (c.find? (fun e => e.1 == k)).map (·.2)

/-- Dict write `d[k] = v`: overwrite in place if the key exists, else append. -/
def dictSet (c : List (Nat × CartData)) (k : Nat) (v : CartData) :
    List (Nat × CartData) :=
  if c.any (fun e => e.1 == k) then
    c.map (fun e => if e.1 == k then (e.1, v) else e)
  else c ++ [(k, v)]

/-- Nat-valued dict (`original_cart : item_id -> original qty`) read with
default 0, i.e. `d.get(k, 0)`. -/
def natDictGet (c : List (Nat × Nat)) (k : Nat) : Nat :=
  ((c.find? (fun e => e.1 == k)).map (·.2)).getD 0

/-- Nat-valued dict write. -/
def natDictSet (c : List (Nat × Nat)) (k : Nat) (v : Nat) : List (Nat × Nat) :=
  if c.any (fun e => e.1 == k) then
    c.map (fun e => if e.1 == k then (e.1, v) else e)
  else c ++ [(k, v)]

/-- Membership test `k in d` for the Nat dict. -/
def natDictHas (c : List (Nat × Nat)) (k : Nat) : Bool :=
  c.any (fun e => e.1 == k)

/-! ## DBManager: pure read helpers -/

/-- ASCII lower-casing of one character, as Python's `str.lower` acts on
the status strings at hand. -/
def lowerChar (c : Char) : Char :=
  if 'A' ≤ c ∧ c ≤ 'Z' then Char.ofNat (c.toNat + 32) else c

/-- Python `s.lower()` on the ASCII status strings. -/
def pyLower (s : String) : String := String.mk (s.data.map lowerChar)

/-- `DBManager.normalize_status` (main.py lines 633-636): a pure function of
the status string; the stored value is never rewritten. -/
def normalize_status (status : String) : String :=
  if pyLower status = "delivered" then "Completed"
  else if status ∈ STATUSES then status else "Pending"

/-- `DBManager.status_for_order` (lines 629-631): first row's status, or ""
when the order id has no row. -/
def status_for_order (st : DBState) (oid : Nat) : String :=
  ((st.orders.find? (fun o => o.id == oid)).map (·.status)).getD ""

/-- `SELECT ... FROM items WHERE id = ?` followed by `result[0]`. -/
def find_item (items : List Item) (iid : Nat) : Option Item :=
  items.find? (fun it => it.id == iid)

/-- `DBManager.get_item_stock` (lines 624-627). -/
def get_item_stock (items : List Item) (iid : Nat) : Option Int :=
  (find_item items iid).map (·.stock)

/-- `DBManager.check_stock_availability` (lines 613-622): returns the
`(item name, requested, available)` triple of every cart entry whose item
row exists and whose requested quantity exceeds the current stock; cart
entries whose item id has no row are skipped. -/
def check_stock_availability (items : List Item) (cart : Cart) :
    List (String × Nat × Int) :=
  match cart with
  | [] => []
  | (iid, d) :: rest =>
    (match find_item items iid with
     | some it => if (d.qty : Int) > it.stock then [(it.name, d.qty, it.stock)] else []
     | none => []) ++ check_stock_availability items rest

/-! ## Code generation -/

/-- Python `f"{record_id:05d}"`: decimal rendering zero-padded to width 5. -/
def pad5 (n : Nat) : String :=
  if (toString n).length < 5 then
    String.mk (List.replicate (5 - (toString n).length) '0') ++ toString n
  else toString n

/-- `DBManager.generate_code` (lines 429-431). -/
def generate_code (pfx : String) (record_id : Nat) : String :=
  pfx ++ pad5 record_id

/-- The `while self.fetch(... WHERE column=code)` suffixing loop of
`ensure_row_code` (lines 439-442): try `base`, then `base-1`, `base-2`, ...
until the candidate is free.  The loop always terminates because the
candidates are pairwise distinct and the table holds finitely many codes;
the fuel `codes.length + 1` is enough to reach a free candidate. -/
def findFreeCode (codes : List String) (pfx : String) (row_id : Nat) :
    Nat → Nat → String → String
  | 0, _, cand => cand
  | fuel + 1, counter, cand =>
    if cand ∈ codes then
      findFreeCode codes pfx row_id fuel (counter + 1)
        (pfx ++ pad5 row_id ++ "-" ++ toString counter)
    else cand

/-- A generic table row as seen by `ensure_row_code`: the id column and the
code column; all other columns are untouched. -/
structure CodeRow where
  id : Nat
  code : Option String
deriving DecidableEq

/-- The code computed by the collision loop of `ensure_row_code`
(lines 438-442). -/
def freshCode (table : List CodeRow) (pfx : String) (row_id : Nat) : String :=
  findFreeCode (table.filterMap (·.code)) pfx row_id
    ((table.filterMap (·.code)).length + 1) 1 (generate_code pfx row_id)

/-- The generate-and-persist branch of `ensure_row_code` (lines 438-443):
loop to a free code, then `UPDATE {table} SET {column}=? WHERE id=?`. -/
def ensureFreshCode (table : List CodeRow) (pfx : String) (row_id : Nat) :
    String × List CodeRow :=
  (freshCode table pfx row_id,
   table.map (fun r =>
     if r.id == row_id then { r with code := some (freshCode table pfx row_id) } else r))

/-- `DBManager.ensure_row_code` (lines 433-444) on a generic table: return
the row's code if it is set (non-NULL, non-empty — Python truthiness),
otherwise find a free code starting from `generate_code`, persist it on
the row, and return it. -/
def ensure_row_code (table : List CodeRow) (pfx : String) (row_id : Nat) :
    String × List CodeRow :=
  let current : Option String :=
    match table.find? (fun r => r.id == row_id) with
    | some r => r.code
    | none => none
  match current with
  | some c => if c = "" then ensureFreshCode table pfx row_id else (c, table)
  | none => ensureFreshCode table pfx row_id

/-- The code computed by the collision loop on the orders table. -/
def freshOrderCode (orders : List Order) (oid : Nat) : String :=
  findFreeCode (orders.filterMap (·.code)) "ORD-" oid
    ((orders.filterMap (·.code)).length + 1) 1 (generate_code "ORD-" oid)

/-- The generate-and-persist branch on the orders table. -/
def ensureFreshOrderCode (orders : List Order) (oid : Nat) : String × List Order :=
  (freshOrderCode orders oid,
   orders.map (fun o =>
     if o.id == oid then { o with code := some (freshOrderCode orders oid) } else o))

/-- `ensure_row_code` specialised to the `orders` table (`order_code`,
prefix `"ORD-"`), returning the updated orders list. -/
def ensure_order_code (orders : List Order) (oid : Nat) : String × List Order :=
  let current : Option String :=
    match orders.find? (fun o => o.id == oid) with
    | some o => o.code
    | none => none
  match current with
  | some c => if c = "" then ensureFreshOrderCode orders oid else (c, orders)
  | none => ensureFreshOrderCode orders oid

/-! ## Cart operations (RenusApp) -/

/-- `RenusApp.add_cart` (lines 950-971): warn-and-return when the item row
is missing or its stock is ≤ 0, or when the current cart quantity already
reaches the current stock; otherwise increment the existing line or insert
a new line with quantity 1 (snapshotting name and price). -/
def add_cart (items : List Item) (cart : Cart) (item : Item) : Cart :=
  match get_item_stock items item.id with
  | none => cart
  | some cs =>
    if cs ≤ 0 then cart
    else
      let cur : Nat := ((dictGet cart item.id).map (·.qty)).getD 0
      if (cur : Int) ≥ cs then cart
      else
        match dictGet cart item.id with
        | some _ =>
          cart.map (fun e => if e.1 == item.id then (e.1, { e.2 with qty := e.2.qty + 1 }) else e)
        | none => cart ++ [(item.id, ⟨item.name, item.price, 1⟩)]

/-- `RenusApp.change_cart_qty` (lines 977-983): no-op when the id is not in
the cart; otherwise add `delta` to the quantity and drop the line entirely
when the result is ≤ 0.  Note: the function consults no stock at all. -/
def change_cart_qty (cart : Cart) (iid : Nat) (delta : Int) : Cart :=
  match dictGet cart iid with
  | none => cart
  | some d =>
    let q : Int := (d.qty : Int) + delta
    if q ≤ 0 then cart.filter (fun e => !(e.1 == iid))
    else cart.map (fun e => if e.1 == iid then (e.1, { e.2 with qty := q.toNat }) else e)

/-- Cart total, `sum(d["price"] * d["qty"] for d in self.cart.values())`. -/
def cartTotal (cart : Cart) : Int :=
  (cart.map (fun e => e.2.price * (e.2.qty : Int))).sum

/-! ## Checkout (RenusApp.checkout, lines 1023-1087) -/

/-- One committed-on-success write statement of the checkout commit phase.
Each corresponds to one `db.execute` call, which commits individually
(main.py lines 579-587). -/
inductive WriteOp where
  | insertOrder (cid : Nat) (date : DateTime) (total : Int)
  | ensureOrderCode (oid : Nat)
  | insertLine (oid : Nat) (iid : Nat) (qty : Nat) (subtotal : Int)
  | decStock (iid : Nat) (qty : Nat)
deriving DecidableEq

/-- `lastrowid` of the orders INSERT: the fresh id taken by the new row. -/
def newOrderId (st : DBState) : Nat :=
  (st.orders.map (·.id)).foldr max 0 + 1

/-- Apply one write statement that succeeded to the database state. -/
def applyOp (st : DBState) : WriteOp → DBState
  | .insertOrder cid date total =>
    { st with orders := st.orders ++ [⟨newOrderId st, cid, date, "Pending", total, none⟩] }
  | .ensureOrderCode oid => { st with orders := (ensure_order_code st.orders oid).2 }
  | .insertLine oid iid qty subtotal =>
    { st with orderLines := st.orderLines ++ [⟨oid, iid, qty, subtotal⟩] }
  | .decStock iid qty =>
    { st with items :=
        st.items.map (fun it => if it.id == iid then { it with stock := it.stock - (qty : Int) } else it) }

/-- Whether a statement raises on its own when executed against `st`:
`PRAGMA foreign_keys = ON` (main.py line 307) together with
`FOREIGN KEY(item_id) REFERENCES items(id)` on order_items (line 373)
makes the order-line INSERT raise `sqlite3.IntegrityError` when its item
id has no items row.  No other commit-phase statement can raise intrinsically:
the order INSERT's customer_id foreign key is covered by checkout's
precondition that the selected customer exists (customers are outside the
modelled state), the line's order_id references the order inserted at the
start of the same phase, and the UPDATEs touch at most existing rows. -/
def opFails (st : DBState) : WriteOp → Bool
  | .insertLine _ iid _ _ => !(st.items.any fun it => it.id == iid)
  | _ => false

/-- Run `db.execute` statements in order with an optional injected
persistence failure at position `failAt` (0-based).  Execution stops at
the first statement that fails — injected, or raising on its own per
`opFails` — and the failing statement has no effect (the rollback in
`DBManager.execute`, lines 579-587, undoes only it); every statement
before it has already committed, so its effects stay. -/
def runOpsAux (failAt : Option Nat) : List WriteOp → DBState → Nat → DBState × Bool
  | [], st, _ => (st, true)
  | op :: rest, st, i =>
    if failAt = some i then (st, false)
    else if opFails st op then (st, false)
    else runOpsAux failAt rest (applyOp st op) (i + 1)

/-- Run a statement sequence from the start; returns the resulting state
and whether every statement succeeded. -/
def runOps (st : DBState) (ops : List WriteOp) (failAt : Option Nat) :
    DBState × Bool :=
  runOpsAux failAt ops st 0

/-- The `db.execute` statements issued by checkout's commit phase, in
program order (lines 1055-1076): order INSERT, lazy code assignment, then
per cart entry an order_items INSERT followed by the stock UPDATE. -/
def checkoutOps (st : DBState) (cart : Cart) (cid : Nat) (now : DateTime) :
    List WriteOp :=
  let total := cartTotal cart
  let oid := newOrderId st
  .insertOrder cid now total :: .ensureOrderCode oid ::
    cart.flatMap (fun e =>
      [.insertLine oid e.1 e.2.qty (e.2.price * (e.2.qty : Int)), .decStock e.1 e.2.qty])

/-- Outcome of a checkout call as surfaced to the user. -/
inductive CheckoutResult where
  | emptyCart
  | insufficientStock (offenders : List (String × Nat × Int))
  | invalidTotal
  | ok (oid : Nat)
  | dbError
deriving DecidableEq

/-- `RenusApp.checkout` (lines 1023-1087) with the customer id already
parsed from the UI selection.  Validation order as in the source: empty
cart, then the authoritative stock re-check (aborting with the full
offender list), then the positive-total check; only then the commit phase,
whose statements commit one by one (`failAt` injects a persistence failure;
`none` means every statement succeeds).  On success the source also clears
the UI cart. -/
def checkout (st : DBState) (cart : Cart) (cid : Nat) (now : DateTime)
    (failAt : Option Nat) : DBState × CheckoutResult :=
  if cart = [] then (st, .emptyCart)
  else
    let ins := check_stock_availability st.items cart
    if ins ≠ [] then (st, .insufficientStock ins)
    else
      let total := cartTotal cart
      if total ≤ 0 then (st, .invalidTotal)
      else
        match runOps st (checkoutOps st cart cid now) failAt with
        | (st', true) => (st', .ok (newOrderId st))
        | (st', false) => (st', .dbError)

/-! ## Order editing (RenusApp.edit_order_popup, lines 1479-1684) -/

/-- The `SELECT oi.item_id, i.name, i.price, oi.quantity ... JOIN items`
of the popup (lines 1497-1500): lines of the order whose item row still
exists, with the item's current name and price. -/
def loadJoinedLines (st : DBState) (oid : Nat) : List (Nat × String × Int × Nat) :=
  (st.orderLines.filter (fun l => l.orderId == oid)).filterMap fun l =>
    (find_item st.items l.itemId).map fun it => (l.itemId, it.name, it.price, l.qty)

/-- Building `self.edit_cart` by dict assignment over the joined rows
(lines 1501-1503). -/
def loadEditCart (st : DBState) (oid : Nat) : Cart :=
  (loadJoinedLines st oid).foldl
    (fun c x => dictSet c x.1 ⟨x.2.1, x.2.2.1, x.2.2.2⟩) []

/-- Building `self.original_cart` (item id -> original quantity) by dict
assignment over the same joined rows. -/
def loadOriginalCart (st : DBState) (oid : Nat) : List (Nat × Nat) :=
  (loadJoinedLines st oid).foldl (fun c x => natDictSet c x.1 x.2.2.2) []

/-- One user interaction inside the edit popup: the "Add Item" button
(`add_new`, lines 1530-1554) or the per-line `+` / `-` buttons
(`change_qty` with delta ±1, lines 1568-1583, 1619-1620). -/
inductive EditOp where
  | addNew (iid : Nat)
  | incQty (iid : Nat)
  | decQty (iid : Nat)
deriving DecidableEq

/-- Semantics of one edit-popup interaction on the in-memory edit cart.
`add_new` reads the stock snapshot fetched when the popup opened and
`change_qty` re-reads current stock (`db.get_item_stock(iid) or 0`); in
this sequential model no other write intervenes during the popup, so both
are the stock in `st`.  Availability for both checks is
`current stock + originally ordered quantity`. -/
def applyEditOp (st : DBState) (orig : List (Nat × Nat)) (cart : Cart) :
    EditOp → Cart
  | .addNew iid =>
    match find_item st.items iid with
    | none => cart
    | some it =>
      if ((((dictGet cart iid).map (·.qty)).getD 0 : Nat) : Int) ≥
          it.stock + (natDictGet orig iid : Int) then cart
      else
        match dictGet cart iid with
        | some d => dictSet cart iid { d with qty := d.qty + 1 }
        | none => dictSet cart iid ⟨it.name, it.price, 1⟩
  | .incQty iid =>
    match dictGet cart iid with
    | none => cart
    | some d =>
      if (d.qty : Int) ≥ (get_item_stock st.items iid).getD 0 +
          (natDictGet orig iid : Int) then cart
      else dictSet cart iid { d with qty := d.qty + 1 }
  | .decQty iid =>
    match dictGet cart iid with
    | none => cart
    | some d =>
      if d.qty ≤ 1 then cart.filter (fun e => !(e.1 == iid))
      else dictSet cart iid { d with qty := d.qty - 1 }

/-- Outcome of saving an order edit. -/
inductive EditResult where
  | locked
  | emptyEdit
  | saved
deriving DecidableEq

/-- The new quantity the edit cart holds for an item id, 0 if the item was
removed: `self.edit_cart.get(iid, {}).get("qty", 0)` (line 1651). -/
def newQtyFor (cart : Cart) (k : Nat) : Nat :=
  ((dictGet cart k).map (·.qty)).getD 0

/-- One step of the first `save_changes` loop (lines 1650-1656): for an
originally ordered item, apply `stock += originalQty - newQty` when the
difference is non-zero. -/
def origAdjust (cart : Cart) (items : List Item) (e : Nat × Nat) : List Item :=
  if (e.2 : Int) - (newQtyFor cart e.1 : Int) ≠ 0 then
    items.map fun it =>
      if it.id == e.1 then
        { it with stock := it.stock + ((e.2 : Int) - (newQtyFor cart e.1 : Int)) }
      else it
  else items

/-- One step of the second `save_changes` loop (lines 1658-1663): for an
edit-cart item that was not originally ordered, deduct its full quantity. -/
def newAdjust (orig : List (Nat × Nat)) (items : List Item) (e : Nat × CartData) :
    List Item :=
  if !(natDictHas orig e.1) then
    items.map fun it =>
      if it.id == e.1 then { it with stock := it.stock - (e.2.qty : Int) } else it
  else items

/-- `save_changes` (lines 1643-1679), success path: reject only an empty
edit cart; otherwise, with no availability re-check of any kind, apply the
stock delta `original - new` for every originally ordered item, deduct the
full quantity of every newly introduced item, replace the order's lines,
and set the order's total and status (forced to "Preparing"). -/
def save_changes (st : DBState) (oid : Nat) (orig : List (Nat × Nat))
    (cart : Cart) : DBState × EditResult :=
  if cart = [] then (st, .emptyEdit)
  else
    let items1 := orig.foldl (origAdjust cart) st.items
    let items2 := cart.foldl (newAdjust orig) items1
    let total := cartTotal cart
    let lines := st.orderLines.filter (fun l => !(l.orderId == oid)) ++
      cart.map (fun e => (⟨oid, e.1, e.2.qty, (e.2.qty : Int) * e.2.price⟩ : OrderLine))
    let orders := st.orders.map
      (fun o => if o.id == oid then { o with total := total, status := "Preparing" } else o)
    ({ items := items2, orders := orders, orderLines := lines }, .saved)

/-- One full order-edit call: the popup-entry lock check (lines 1482-1485),
the lazy code assignment at popup open (line 1487), loading the original
lines, running the user's interactions, and saving. -/
def edit_order (st : DBState) (oid : Nat) (ops : List EditOp) :
    DBState × EditResult :=
  if normalize_status (status_for_order st oid) = "Completed" then (st, .locked)
  else
    let st1 : DBState := { st with orders := (ensure_order_code st.orders oid).2 }
    let orig := loadOriginalCart st1 oid
    let cart0 := loadEditCart st1 oid
    let cart := ops.foldl (applyEditOp st1 orig) cart0
    save_changes st1 oid orig cart

/-- `update_status` inside `order_details_popup` (lines 1444-1453):
re-read and normalize the current status, reject when it is "Completed",
otherwise store the newly selected status verbatim. -/
def update_status (st : DBState) (oid : Nat) (newStatus : String) : DBState :=
  if normalize_status (status_for_order st oid) = "Completed" then st
  else
    { st with
      orders := st.orders.map fun o =>
        if o.id == oid then { o with status := newStatus } else o }

/-! ## Whole-app operation sequences -/

/-- One committed user-level operation of the order engine. -/
inductive AppOp where
  | checkoutOp (cart : Cart) (cid : Nat) (now : DateTime)
  | editOp (oid : Nat) (ops : List EditOp)
  | statusOp (oid : Nat) (newStatus : String)

/-- Apply one committed operation (no injected persistence failure). -/
def applyAppOp (st : DBState) : AppOp → DBState
  | .checkoutOp cart cid now => (checkout st cart cid now none).1
  | .editOp oid ops => (edit_order st oid ops).1
  | .statusOp oid s => update_status st oid s

/-- Run a sequence of committed operations. -/
def runApp (st : DBState) (l : List AppOp) : DBState :=
  l.foldl applyAppOp st

/-- Every item's stock is ≥ 0. -/
def StocksNonneg (st : DBState) : Prop :=
  ∀ it ∈ st.items, 0 ≤ it.stock

instance (st : DBState) : Decidable (StocksNonneg st) :=
  List.decidableBAll _ st.items

/-- The items table has pairwise distinct ids (its `id` column is the
INTEGER PRIMARY KEY). -/
def NodupItemIds (st : DBState) : Prop :=
  (st.items.map (·.id)).Nodup

instance (st : DBState) : Decidable (NodupItemIds st) := by
  unfold NodupItemIds
  infer_instance

/-- A cart as Python's dict guarantees it: pairwise distinct item ids. -/
def WfCart (cart : Cart) : Prop :=
  (cart.map (·.1)).Nodup

instance (cart : Cart) : Decidable (WfCart cart) := by
  unfold WfCart
  infer_instance

/-- Well-formedness of an operation: checkout carts come from the UI cart
dict, hence have distinct keys; the other operations need nothing. -/
def WfOp : AppOp → Prop
  | .checkoutOp cart _ _ => WfCart cart
  | .editOp _ _ => True
  | .statusOp _ _ => True

instance (op : AppOp) : Decidable (WfOp op) := by
  cases op <;> (unfold WfOp; infer_instance)

/-! ## Monthly report (DBManager.monthly_report, lines 638-678) -/

/-- The result record of `monthly_report`; the `top_items` SQL aggregation
is consumed only by chart rendering and is outside every claim, so it is
not modelled. -/
structure ReportResult where
  orders : List Order
  totalRevenue : Int
  statusCounts : List (String × Nat)
deriving DecidableEq

/-- First day of a month, as `datetime(year, month, 1)` renders it. -/
def month_start (y m : Nat) : DateTime := ⟨y, m, 1, 0, 0, 0⟩

/-- `DBManager.monthly_report` (lines 638-678).  `if month:` is Python
truthiness, so `none` (and 0) selects the whole year; the end bound is the
first of the following month (January of the next year for December).
Order rows are selected by `date >= start AND date < end` on the stored
timestamp strings. -/
def monthly_report (st : DBState) (year : Nat) (month : Option Nat) :
    ReportResult :=
  let bounds : DateTime × DateTime :=
    match month with
    | some m =>
      if m ≠ 0 then
        (month_start year m,
         if m = 12 then month_start (year + 1) 1 else month_start year (m + 1))
      else (month_start year 1, month_start (year + 1) 1)
    | none => (month_start year 1, month_start (year + 1) 1)
  let inRange := st.orders.filter
    (fun o => dtLe bounds.1 o.date && dtLt o.date bounds.2)
  let revenue := (inRange.map (·.total)).sum
  let counts := inRange.foldl
    (fun acc o =>
      let s := normalize_status o.status
      if acc.any (fun e => e.1 == s) then
        acc.map (fun e => if e.1 == s then (e.1, e.2 + 1) else e)
      else acc ++ [(s, 1)])
    (STATUSES.map (fun s => (s, 0)))
  ⟨inRange, revenue, counts⟩

/-! ## General helper lemmas -/

/-- A string with non-empty character data is not the empty string. -/
theorem str_ne_empty_of_data {s : String} (h : s.data ≠ []) : s ≠ "" := by
  intro e
  exact h (by rw [e])

/-- The zero-padded id rendering has non-empty character data. -/
theorem pad5_data_ne_nil (n : Nat) : (pad5 n).data ≠ [] := by
  unfold pad5
  split
  case isTrue h =>
    rw [String.data_append]
    intro e
    have e1 : List.replicate (5 - (toString n).length) '0' = [] :=
      (List.append_eq_nil.mp (by simpa using e)).1
    have : 5 - (toString n).length = 0 := by
      simpa using congrArg List.length e1
    omega
  case isFalse h =>
    intro e
    have : (toString n).length = 0 := by
      show (toString n).data.length = 0
      rw [e]
      rfl
    omega

/-- Generated base codes are non-empty, hence Python-truthy. -/
theorem generate_code_ne_empty (pfx : String) (n : Nat) :
    generate_code pfx n ≠ "" := by
  apply str_ne_empty_of_data
  unfold generate_code
  rw [String.data_append]
  intro e
  exact pad5_data_ne_nil n (List.append_eq_nil.mp e).2

/-- Suffixed collision candidates are non-empty, hence Python-truthy. -/
theorem suffixed_code_ne_empty (pfx : String) (rid counter : Nat) :
    pfx ++ pad5 rid ++ "-" ++ toString counter ≠ "" := by
  apply str_ne_empty_of_data
  rw [String.data_append, String.data_append, String.data_append]
  intro e
  rcases List.append_eq_nil.mp e with ⟨e1, _⟩
  rcases List.append_eq_nil.mp e1 with ⟨e2, _⟩
  exact pad5_data_ne_nil rid (List.append_eq_nil.mp e2).2

/-- Every candidate the collision loop can return is non-empty. -/
theorem findFreeCode_ne_empty (codes : List String) (pfx : String) (rid : Nat) :
    ∀ (fuel counter : Nat) (cand : String), cand ≠ "" →
      findFreeCode codes pfx rid fuel counter cand ≠ "" := by
  intro fuel
  induction fuel with
  | zero => intro counter cand h; exact h
  | succ n ih =>
    intro counter cand h
    unfold findFreeCode
    split
    · exact ih (counter + 1) _ (suffixed_code_ne_empty pfx rid counter)
    · exact h

/-! ## C7: status normalization -/

/-- Claim C7, counterexample: the stored value "DELIVERED" is neither the
legacy literal "Delivered" nor one of the four canonical statuses, yet
`normalize_status` maps it to "Completed", not to "Pending" as the claim's
"any other unrecognized value normalizes to Pending" states (the code
matches the legacy value case-insensitively, main.py line 634). -/
theorem normalize_status_mixed_case_delivered :
    normalize_status "DELIVERED" ≠ "Pending" ∧
      "DELIVERED" ∉ STATUSES ∧ "DELIVERED" ≠ "Delivered" := by
  refine ⟨?_, ?_, ?_⟩ <;> decide

/-- Claim C7 (amended): status normalization on read maps any
case-insensitive variant of "delivered" — in particular the legacy stored
value "Delivered" — to "Completed", returns each of the four canonical
status values unchanged, and maps every other value to "Pending".  It is a
pure function of the status string (`normalize_status` performs no write),
so the stored status is never rewritten. -/
theorem normalize_status_characterization (s : String) :
    (pyLower s = "delivered" → normalize_status s = "Completed") ∧
    (s ∈ STATUSES → normalize_status s = s) ∧
    (pyLower s ≠ "delivered" → s ∉ STATUSES → normalize_status s = "Pending") := by
  refine ⟨?_, ?_, ?_⟩
  · intro h
    simp [normalize_status, h]
  · intro h
    have hs : s = "Pending" ∨ s = "Preparing" ∨ s = "Ready" ∨ s = "Completed" := by
      simpa [STATUSES] using h
    rcases hs with rfl | rfl | rfl | rfl <;> decide
  · intro h1 h2
    simp [normalize_status, h1, h2]

/-- Witness for C7's amended theorem at concrete inputs. -/
theorem normalize_status_characterization_witness :
    normalize_status "Delivered" = "Completed" ∧
      normalize_status "Ready" = "Ready" ∧ normalize_status "zzz" = "Pending" :=
  ⟨(normalize_status_characterization "Delivered").1 (by decide),
   (normalize_status_characterization "Ready").2.1 (by decide),
   (normalize_status_characterization "zzz").2.2 (by decide) (by decide)⟩

/-! ## C9: lazy code generation is idempotent -/

/-- The collision-loop result is non-empty, hence Python-truthy. -/
theorem freshCode_ne_empty (table : List CodeRow) (pfx : String) (rid : Nat) :
    freshCode table pfx rid ≠ "" :=
  findFreeCode_ne_empty _ _ _ _ _ _ (generate_code_ne_empty pfx rid)

/-- Fetching a row by id commutes with the UPDATE that writes the fresh
code into the rows of that id. -/
theorem find?_setCode (l : List CodeRow) (rid : Nat) (c : String) :
    (l.map (fun r => if r.id == rid then { r with code := some c } else r)).find?
        (fun r => r.id == rid) =
      (l.find? (fun r => r.id == rid)).map
        (fun r => if r.id == rid then { r with code := some c } else r) := by
  rw [List.find?_map]
  have hpf : ((fun r => r.id == rid) ∘
        fun r => if r.id == rid then { r with code := some c } else r) =
      (fun r : CodeRow => r.id == rid) := by
    funext r
    by_cases h : r.id == rid <;> simp [Function.comp, h]
  rw [hpf]

/-- After the generate-and-persist branch, a fresh fetch of the row
returns it with the fresh code set. -/
theorem find?_after_fresh (table : List CodeRow) (pfx : String) (rid : Nat)
    (r0 : CodeRow) (hr0 : table.find? (fun r => r.id == rid) = some r0) :
    (ensureFreshCode table pfx rid).2.find? (fun r => r.id == rid) =
      some { r0 with code := some (freshCode table pfx rid) } := by
  have hp : r0.id = rid := by
    have := List.find?_some (p := fun r : CodeRow => r.id == rid) hr0
    simpa using this
  show (table.map (fun r =>
      if r.id == rid then { r with code := some (freshCode table pfx rid) } else r)).find?
      (fun r => r.id == rid) = _
  rw [find?_setCode, hr0]
  simp [hp]

/-- A second `ensure_row_code` call right after the generate-and-persist
branch fetches the just-persisted code and returns it unchanged. -/
theorem ensure_after_fresh (table : List CodeRow) (pfx : String) (rid : Nat)
    (r0 : CodeRow) (hr0 : table.find? (fun r => r.id == rid) = some r0) :
    ensure_row_code (ensureFreshCode table pfx rid).2 pfx rid =
      ensureFreshCode table pfx rid := by
  have hne := freshCode_ne_empty table pfx rid
  unfold ensure_row_code
  rw [find?_after_fresh table pfx rid r0 hr0]
  simp [hne, ensureFreshCode]

/-- Claim C9: `ensure_row_code` is idempotent.  For every row of the
table, calling it twice with no intervening writes returns the same code
(and leaves the same table): the first call persists the code if it was
absent — the second call's fetch of the row yields exactly the code the
first call returned — and the second call short-circuits on it. -/
theorem ensure_row_code_idempotent (table : List CodeRow) (pfx : String)
    (rid : Nat) (hrow : ∃ r ∈ table, r.id = rid) :
    ensure_row_code (ensure_row_code table pfx rid).2 pfx rid =
        ensure_row_code table pfx rid ∧
      ((ensure_row_code table pfx rid).2.find? (fun r => r.id == rid)).map (·.code) =
        some (some (ensure_row_code table pfx rid).1) := by
  obtain ⟨r, hmem, hid⟩ := hrow
  have hsome : (table.find? (fun r => r.id == rid)).isSome :=
    List.find?_isSome.mpr ⟨r, hmem, by simp [hid]⟩
  obtain ⟨r0, hr0⟩ := Option.isSome_iff_exists.mp hsome
  rcases hc : r0.code with _ | c
  · have h1 : ensure_row_code table pfx rid = ensureFreshCode table pfx rid := by
      unfold ensure_row_code
      rw [hr0]
      simp [hc]
    refine ⟨by rw [h1]; exact ensure_after_fresh table pfx rid r0 hr0, ?_⟩
    rw [h1, find?_after_fresh table pfx rid r0 hr0]
    simp [ensureFreshCode]
  · by_cases hce : c = ""
    · have h1 : ensure_row_code table pfx rid = ensureFreshCode table pfx rid := by
        unfold ensure_row_code
        rw [hr0]
        simp [hc, hce]
      refine ⟨by rw [h1]; exact ensure_after_fresh table pfx rid r0 hr0, ?_⟩
      rw [h1, find?_after_fresh table pfx rid r0 hr0]
      simp [ensureFreshCode]
    · have h1 : ensure_row_code table pfx rid = (c, table) := by
        unfold ensure_row_code
        rw [hr0]
        simp [hc, hce]
      refine ⟨by rw [h1]; exact h1, ?_⟩
      rw [h1, hr0]
      simp [hc]

/-- Witness for C9 at a concrete one-row table with no code yet. -/
theorem ensure_row_code_idempotent_witness :
    ensure_row_code (ensure_row_code [⟨1, none⟩] "ITM-" 1).2 "ITM-" 1 =
        ensure_row_code [⟨1, none⟩] "ITM-" 1 ∧
      ((ensure_row_code [⟨1, none⟩] "ITM-" 1).2.find? (fun r => r.id == 1)).map (·.code) =
        some (some (ensure_row_code [⟨1, none⟩] "ITM-" 1).1) :=
  ensure_row_code_idempotent [⟨1, none⟩] "ITM-" 1 ⟨⟨1, none⟩, by decide, rfl⟩

/-! ## C4: cart quantity change -/

/-- Claim C4, counterexample: with catalog stock 1 and a cart line already
at quantity 1, `change_cart_qty` with delta +1 raises the quantity to 2 —
exceeding the item's current catalog stock — instead of rejecting the
change and leaving the cart unchanged; the function performs no stock
check at all (main.py lines 977-983 consult no stock). -/
theorem change_cart_qty_ignores_stock :
    get_item_stock [⟨1, "A", 10, 1, some "ITM-00001"⟩] 1 = some 1 ∧
      change_cart_qty [(1, ⟨"A", 10, 1⟩)] 1 1 = [(1, ⟨"A", 10, 2⟩)] ∧
      change_cart_qty [(1, ⟨"A", 10, 1⟩)] 1 1 ≠ [(1, ⟨"A", 10, 1⟩)] := by
  refine ⟨?_, ?_, ?_⟩ <;> decide

/-- Claim C4 (amended): `change_cart_qty` consults no stock whatsoever: on
an id not in the cart it is a no-op; on a present line it always adds
`delta` to the quantity — positive deltas are never rejected, even when
the result exceeds the item's current catalog stock (only checkout's
re-validation catches that later) — and whenever the quantity after the
change is ≤ 0 the line is removed from the cart entirely. -/
theorem change_cart_qty_behavior (cart : Cart) (iid : Nat) (delta : Int) :
    (dictGet cart iid = none → change_cart_qty cart iid delta = cart) ∧
    (∀ d, dictGet cart iid = some d →
      ((d.qty : Int) + delta ≤ 0 →
        change_cart_qty cart iid delta = cart.filter (fun e => !(e.1 == iid))) ∧
      (0 < (d.qty : Int) + delta →
        change_cart_qty cart iid delta = cart.map (fun e =>
          if e.1 == iid then (e.1, { e.2 with qty := ((d.qty : Int) + delta).toNat })
          else e))) := by
  refine ⟨?_, ?_⟩
  · intro h
    simp [change_cart_qty, h]
  · intro d hd
    refine ⟨?_, ?_⟩
    · intro hle
      simp [change_cart_qty, hd, hle]
    · intro hpos
      have hnle : ¬((d.qty : Int) + delta ≤ 0) := by omega
      simp [change_cart_qty, hd, hnle]

/-- Witness for C4's amended theorem: an unchecked +1 past the stock cap,
and a removal at quantity 0. -/
theorem change_cart_qty_behavior_witness :
    change_cart_qty [(1, ⟨"A", 10, 1⟩)] 1 1 = [(1, ⟨"A", 10, 1⟩)].map (fun e =>
        if e.1 == 1 then (e.1, { e.2 with qty := ((1 : Int) + 1).toNat }) else e) ∧
      change_cart_qty [(2, ⟨"B", 5, 1⟩)] 2 (-1) =
        [(2, ⟨"B", 5, 1⟩)].filter (fun e => !(e.1 == 2)) :=
  ⟨((change_cart_qty_behavior [(1, ⟨"A", 10, 1⟩)] 1 1).2 ⟨"A", 10, 1⟩
      (by decide)).2 (by decide),
   ((change_cart_qty_behavior [(2, ⟨"B", 5, 1⟩)] 2 (-1)).2 ⟨"B", 5, 1⟩
      (by decide)).1 (by decide)⟩

/-! ## C6: checkout's stock re-check lists every offender and aborts -/

/-- Every cart entry whose item row exists and whose quantity exceeds the
current stock contributes its `(name, requested, available)` triple to the
result of `check_stock_availability` — not only the first offender. -/
theorem mem_check_stock_availability (items : List Item) (cart : Cart)
    (e : Nat × CartData) (it : Item) (he : e ∈ cart)
    (hit : find_item items e.1 = some it) (hq : (e.2.qty : Int) > it.stock) :
    (it.name, e.2.qty, it.stock) ∈ check_stock_availability items cart := by
  induction cart with
  | nil => cases he
  | cons a rest ih =>
    rcases List.mem_cons.mp he with rfl | hmem
    · show _ ∈ (match find_item items e.1 with
        | some it => if (e.2.qty : Int) > it.stock then [(it.name, e.2.qty, it.stock)] else []
        | none => []) ++ check_stock_availability items rest
      rw [hit]
      simp [hq]
    · exact List.mem_append_right _ (ih hmem)

/-- Claim C6: when the authoritative re-check finds an offending cart line,
the offending triple is in the reported list (whatever its position), and
checkout returns the full offender list as an InsufficientStock failure
with the database state exactly as before the call — no order row, no
order line, no stock change — regardless of any would-be failure point of
the commit phase. -/
theorem checkout_reports_all_offenders (st : DBState) (cart : Cart) (cid : Nat)
    (now : DateTime) (failAt : Option Nat) (e : Nat × CartData) (it : Item)
    (he : e ∈ cart) (hit : find_item st.items e.1 = some it)
    (hq : (e.2.qty : Int) > it.stock) :
    (it.name, e.2.qty, it.stock) ∈ check_stock_availability st.items cart ∧
      checkout st cart cid now failAt =
        (st, .insufficientStock (check_stock_availability st.items cart)) := by
  have hmem := mem_check_stock_availability st.items cart e it he hit hq
  refine ⟨hmem, ?_⟩
  have hcart : cart ≠ [] := by
    intro h
    rw [h] at he
    cases he
  have hins : check_stock_availability st.items cart ≠ [] := by
    intro h
    rw [h] at hmem
    cases hmem
  simp [checkout, hcart, hins]

/-- Witness for C6: two offending lines; the second one's triple is also
reported, and checkout aborts with the state unchanged. -/
theorem checkout_reports_all_offenders_witness :
    ("B", 2, (0 : Int)) ∈ check_stock_availability
        [⟨1, "A", 10, 1, none⟩, ⟨2, "B", 5, 0, none⟩]
        [(1, ⟨"A", 10, 2⟩), (2, ⟨"B", 5, 2⟩)] ∧
      checkout ⟨[⟨1, "A", 10, 1, none⟩, ⟨2, "B", 5, 0, none⟩], [], []⟩
          [(1, ⟨"A", 10, 2⟩), (2, ⟨"B", 5, 2⟩)] 1 ⟨2024, 3, 15, 12, 0, 0⟩ none =
        (⟨[⟨1, "A", 10, 1, none⟩, ⟨2, "B", 5, 0, none⟩], [], []⟩,
         .insufficientStock (check_stock_availability
           [⟨1, "A", 10, 1, none⟩, ⟨2, "B", 5, 0, none⟩]
           [(1, ⟨"A", 10, 2⟩), (2, ⟨"B", 5, 2⟩)])) :=
  checkout_reports_all_offenders
    ⟨[⟨1, "A", 10, 1, none⟩, ⟨2, "B", 5, 0, none⟩], [], []⟩
    [(1, ⟨"A", 10, 2⟩), (2, ⟨"B", 5, 2⟩)] 1 ⟨2024, 3, 15, 12, 0, 0⟩ none
    (2, ⟨"B", 5, 2⟩) ⟨2, "B", 5, 0, none⟩ (by decide) (by decide) (by decide)

/-! ## C1: checkout's commit phase is not atomic -/

/-- A two-item catalog with ample stock. -/
def exSt1 : DBState :=
  { items := [⟨1, "A", 10, 5, some "ITM-00001"⟩, ⟨2, "B", 20, 3, some "ITM-00002"⟩],
    orders := [], orderLines := [] }

/-- A two-line cart over `exSt1`. -/
def exCart1 : Cart := [(1, ⟨"A", 10, 2⟩), (2, ⟨"B", 20, 1⟩)]

/-- A fixed order timestamp. -/
def exNow : DateTime := ⟨2024, 3, 15, 12, 0, 0⟩

/-- Claim C1 is false of the code (code bug): the stock re-check passes,
and a persistence failure at the 6th statement of the commit phase (the
stock UPDATE of the second item) leaves the checkout reported as failed,
yet the database differs from the pre-call state: the order row was
committed, both order lines were committed, and item 1's stock was already
decremented from 5 to 3 — each `db.execute` commits individually
(main.py lines 579-587), so nothing rolls the earlier statements back,
contrary to the claim (and to the source's own "Use transaction for atomic
order creation" comment at line 1056). -/
theorem checkout_nonatomic_commit_on_failure :
    check_stock_availability exSt1.items exCart1 = [] ∧
      (checkout exSt1 exCart1 1 exNow (some 5)).2 = .dbError ∧
      (checkout exSt1 exCart1 1 exNow (some 5)).1 ≠ exSt1 ∧
      (checkout exSt1 exCart1 1 exNow (some 5)).1.orders ≠ [] ∧
      (checkout exSt1 exCart1 1 exNow (some 5)).1.orderLines ≠ [] ∧
      get_item_stock (checkout exSt1 exCart1 1 exNow (some 5)).1.items 1 = some 3 := by
  refine ⟨?_, ?_, ?_, ?_, ?_, ?_⟩ <;> decide

/-! ## C2, counterexample: the order-edit save never re-checks stock -/

/-- A catalog with zero stock of item 1 and a pending one-line order for it. -/
def exSt2 : DBState :=
  { items := [⟨1, "A", 50, 0, some "ITM-00001"⟩],
    orders := [⟨1, 1, exNow, "Pending", 50, some "ORD-00001"⟩],
    orderLines := [⟨1, 1, 1, 50⟩] }

/-- Claim C2, counterexample: editing the (non-Completed) order's single
line from quantity 1 to quantity 3 exceeds availability — current stock 0
plus original quantity 1 is less than 3 — yet `save_changes` does not
reject the edit with InsufficientStock: it commits it, replacing the lines
and driving item 1's stock to −2; nothing is left unchanged.  The save
step of `edit_order_popup` (main.py lines 1643-1679) performs no
availability check of any kind. -/
theorem save_changes_applies_excess_edit :
    normalize_status (status_for_order exSt2 1) = "Pending" ∧
      get_item_stock exSt2.items 1 = some 0 ∧
      natDictGet [(1, 1)] 1 = 1 ∧
      ((0 : Int) + 1 < 3) ∧
      (save_changes exSt2 1 [(1, 1)] [(1, ⟨"A", 50, 3⟩)]).2 = .saved ∧
      get_item_stock (save_changes exSt2 1 [(1, 1)] [(1, ⟨"A", 50, 3⟩)]).1.items 1 =
        some (-2) ∧
      (save_changes exSt2 1 [(1, 1)] [(1, ⟨"A", 50, 3⟩)]).1 ≠ exSt2 := by
  refine ⟨?_, ?_, ?_, ?_, ?_, ?_, ?_⟩ <;> decide

/-! ## C10: unknown item ids pass the stock re-check -/

/-- A cart entry whose item id has no row in the items table contributes
nothing to `check_stock_availability`: deleting it from the cart leaves
the result unchanged. -/
theorem check_stock_skips_missing (items : List Item) (e : Nat × CartData)
    (hmiss : ∀ it ∈ items, it.id ≠ e.1) :
    ∀ xs ys : Cart, check_stock_availability items (xs ++ e :: ys) =
      check_stock_availability items (xs ++ ys) := by
  have hfind : find_item items e.1 = none := by
    apply List.find?_eq_none.mpr
    intro it hit
    simp [hmiss it hit]
  intro xs
  induction xs with
  | nil =>
    intro ys
    show (match find_item items e.1 with
      | some it => if (e.2.qty : Int) > it.stock then [(it.name, e.2.qty, it.stock)] else []
      | none => []) ++ check_stock_availability items ys = _
    rw [hfind]
    rfl
  | cons a rest ih =>
    intro ys
    show (match find_item items a.1 with
      | some it => if (a.2.qty : Int) > it.stock then [(it.name, a.2.qty, it.stock)] else []
      | none => []) ++ check_stock_availability items (rest ++ e :: ys) = _
    rw [ih ys]
    rfl

/-- The order lines inserted by a write-op list, in order. -/
def opsLines (ops : List WriteOp) : List OrderLine :=
  ops.filterMap fun op =>
    match op with
    | .insertLine oid iid q s => some ⟨oid, iid, q, s⟩
    | _ => none

/-- Running a write-op list appends exactly its inserted lines to the
order_items table. -/
theorem foldl_applyOp_orderLines (ops : List WriteOp) :
    ∀ st : DBState, (ops.foldl applyOp st).orderLines = st.orderLines ++ opsLines ops := by
  induction ops with
  | nil => intro st; simp [opsLines]
  | cons op rest ih =>
    intro st
    show (rest.foldl applyOp (applyOp st op)).orderLines = _
    rw [ih]
    cases op <;> simp [applyOp, opsLines, List.filterMap_cons]

/-- The lines of checkout's commit phase are one line per cart entry, in
cart order, with the fresh order id and the snapshot subtotal. -/
theorem opsLines_checkoutOps (st : DBState) (cart : Cart) (cid : Nat) (now : DateTime) :
    opsLines (checkoutOps st cart cid now) = cart.map fun e =>
      (⟨newOrderId st, e.1, e.2.qty, e.2.price * (e.2.qty : Int)⟩ : OrderLine) := by
  show opsLines (_ :: _ :: cart.flatMap _) = _
  have haux : ∀ c : Cart, opsLines (c.flatMap fun e =>
      [.insertLine (newOrderId st) e.1 e.2.qty (e.2.price * (e.2.qty : Int)),
       .decStock e.1 e.2.qty]) = c.map fun e =>
        (⟨newOrderId st, e.1, e.2.qty, e.2.price * (e.2.qty : Int)⟩ : OrderLine) := by
    intro c
    induction c with
    | nil => rfl
    | cons a r ih => simp [opsLines, List.filterMap_cons] at ih ⊢; exact ih
  simp [opsLines, List.filterMap_cons] at haux ⊢
  exact haux cart

/-- Whatever fails, the state a statement run leaves behind is the fold of
some prefix of the statements: everything before the failure committed,
nothing after it ran, and the failing statement itself had no effect. -/
theorem runOpsAux_prefix (failAt : Option Nat) :
    ∀ (ops : List WriteOp) (st : DBState) (i : Nat),
      ∃ k, (runOpsAux failAt ops st i).1 = (ops.take k).foldl applyOp st := by
  intro ops
  induction ops with
  | nil =>
    intro st i
    exact ⟨0, rfl⟩
  | cons op rest ih =>
    intro st i
    show ∃ k, ((if failAt = some i then (st, false)
      else if opFails st op then (st, false)
      else runOpsAux failAt rest (applyOp st op) (i + 1)) : DBState × Bool).1 =
        ((op :: rest).take k).foldl applyOp st
    by_cases h1 : failAt = some i
    · exact ⟨0, by simp [h1]⟩
    · by_cases h2 : opFails st op = true
      · exact ⟨0, by simp [h1, h2]⟩
      · obtain ⟨k, hk⟩ := ih (applyOp st op) (i + 1)
        refine ⟨k + 1, ?_⟩
        simp only [if_neg h1, if_neg h2, List.take_succ_cons, List.foldl_cons]
        exact hk

/-- Prefix form of `runOps`. -/
theorem runOps_prefix (st : DBState) (ops : List WriteOp) (failAt : Option Nat) :
    ∃ k, (runOps st ops failAt).1 = (ops.take k).foldl applyOp st :=
  runOpsAux_prefix failAt ops st 0

/-- A single applied statement never changes the items' id column. -/
theorem applyOp_items_ids (st : DBState) (op : WriteOp) :
    ((applyOp st op).items).map (·.id) = st.items.map (·.id) := by
  cases op with
  | decStock iid q =>
    show ((st.items.map fun it =>
        if it.id == iid then { it with stock := it.stock - (q : Int) } else it).map
      (·.id)) = st.items.map (·.id)
    rw [List.map_map]
    apply List.map_congr_left
    intro it _
    simp only [Function.comp]
    split <;> rfl
  | insertOrder cid date total => rfl
  | ensureOrderCode oid => rfl
  | insertLine oid iid q s => rfl

/-- An item id absent from the catalog stays absent under any applied
statement (no statement inserts an items row). -/
theorem unknown_id_preserved (st : DBState) (op : WriteOp) (iid : Nat)
    (h : ∀ it ∈ st.items, it.id ≠ iid) :
    ∀ it ∈ (applyOp st op).items, it.id ≠ iid := by
  intro it hit
  have hmm : it.id ∈ ((applyOp st op).items).map (·.id) := List.mem_map_of_mem _ hit
  rw [applyOp_items_ids] at hmm
  obtain ⟨it0, hit0, he⟩ := List.mem_map.mp hmm
  rw [← he]
  exact h it0 hit0

/-- A statement run that must execute an order-line INSERT whose item id
has no items row cannot report success: at the latest, that INSERT raises
the foreign-key IntegrityError. -/
theorem runOpsAux_none_fails :
    ∀ (ops : List WriteOp) (st : DBState) (i oid iid : Nat) (q : Nat) (s : Int),
      WriteOp.insertLine oid iid q s ∈ ops → (∀ it ∈ st.items, it.id ≠ iid) →
      (runOpsAux none ops st i).2 = false := by
  intro ops
  induction ops with
  | nil =>
    intro st i oid iid q s hmem
    cases hmem
  | cons op rest ih =>
    intro st i oid iid q s hmem hmiss
    show ((if (none : Option Nat) = some i then (st, false)
      else if opFails st op then (st, false)
      else runOpsAux none rest (applyOp st op) (i + 1)) : DBState × Bool).2 = false
    rw [if_neg (by simp)]
    by_cases hf : opFails st op = true
    · rw [if_pos hf]
    · rw [if_neg hf]
      rcases List.mem_cons.mp hmem with rfl | hmem'
      · exfalso
        apply hf
        show opFails st (.insertLine oid iid q s) = true
        unfold opFails
        simp
        intro it hit
        exact hmiss it hit
      · exact ih (applyOp st op) (i + 1) oid iid q s hmem'
          (unknown_id_preserved st op iid hmiss)

/-- When every validation passes, checkout hands the cart to the commit
phase and reports success or failure exactly as the statement run does. -/
theorem checkout_enters_commit (st : DBState) (cart : Cart) (cid : Nat)
    (now : DateTime) (failAt : Option Nat) (hcart : cart ≠ [])
    (hins : check_stock_availability st.items cart = [])
    (htot : 0 < cartTotal cart) :
    checkout st cart cid now failAt =
      ((runOps st (checkoutOps st cart cid now) failAt).1,
       if (runOps st (checkoutOps st cart cid now) failAt).2 then
         .ok (newOrderId st)
       else .dbError) := by
  have h3 : ¬(cartTotal cart ≤ 0) := by omega
  rcases hr : runOps st (checkoutOps st cart cid now) failAt with ⟨st', b⟩
  cases b <;> simp [checkout, hcart, hins, h3, hr]

/-- The state a validated checkout leaves behind is the statement run's
state, whether or not the run succeeded. -/
theorem checkout_commit_state (st : DBState) (cart : Cart) (cid : Nat)
    (now : DateTime) (failAt : Option Nat) (hcart : cart ≠ [])
    (hins : check_stock_availability st.items cart = [])
    (htot : 0 < cartTotal cart) :
    (checkout st cart cid now failAt).1 =
      (runOps st (checkoutOps st cart cid now) failAt).1 := by
  rw [checkout_enters_commit st cart cid now failAt hcart hins htot]

/-- Claim C10: a cart entry whose item id has no row in the items table is
silently skipped by `check_stock_availability` — removing it changes
nothing in the returned triples — so when every other line passes the
re-check, checkout validates the cart and proceeds into the commit phase,
attempting to persist an order line for the unknown item id: that INSERT
is among the issued statements, and it raises the order_items foreign-key
IntegrityError, so the checkout ends in the failure path with whatever
earlier statements had already committed. -/
theorem check_stock_skips_unknown_items (st : DBState) (xs ys : Cart)
    (e : Nat × CartData) (cid : Nat) (now : DateTime)
    (hmiss : ∀ it ∈ st.items, it.id ≠ e.1)
    (hok : check_stock_availability st.items (xs ++ ys) = [])
    (htot : 0 < cartTotal (xs ++ e :: ys)) :
    check_stock_availability st.items (xs ++ e :: ys) =
        check_stock_availability st.items (xs ++ ys) ∧
      WriteOp.insertLine (newOrderId st) e.1 e.2.qty (e.2.price * (e.2.qty : Int)) ∈
        checkoutOps st (xs ++ e :: ys) cid now ∧
      opFails st (.insertLine (newOrderId st) e.1 e.2.qty
        (e.2.price * (e.2.qty : Int))) = true ∧
      checkout st (xs ++ e :: ys) cid now none =
        ((runOps st (checkoutOps st (xs ++ e :: ys) cid now) none).1, .dbError) := by
  have hskip := check_stock_skips_missing st.items e hmiss xs ys
  have hins : check_stock_availability st.items (xs ++ e :: ys) = [] := hskip.trans hok
  have hcart : (xs ++ e :: ys) ≠ [] := by simp
  have hmem : WriteOp.insertLine (newOrderId st) e.1 e.2.qty
      (e.2.price * (e.2.qty : Int)) ∈ checkoutOps st (xs ++ e :: ys) cid now := by
    show _ ∈ _ :: _ :: (xs ++ e :: ys).flatMap _
    refine List.mem_cons_of_mem _ (List.mem_cons_of_mem _ ?_)
    exact List.mem_flatMap.mpr ⟨e, by simp, by simp⟩
  have hfails : opFails st (.insertLine (newOrderId st) e.1 e.2.qty
      (e.2.price * (e.2.qty : Int))) = true := by
    unfold opFails
    simp
    intro it hit
    exact hmiss it hit
  refine ⟨hskip, hmem, hfails, ?_⟩
  have hrun : (runOps st (checkoutOps st (xs ++ e :: ys) cid now) none).2 = false :=
    runOpsAux_none_fails (checkoutOps st (xs ++ e :: ys) cid now) st 0
      (newOrderId st) e.1 e.2.qty (e.2.price * (e.2.qty : Int)) hmem hmiss
  rw [checkout_enters_commit st (xs ++ e :: ys) cid now none hcart hins htot, hrun]
  rfl

/-- Witness for C10: a one-line cart whose only item id (99) has no
catalog row passes validation; the ghost line's INSERT is issued, raises
the foreign-key error, and checkout ends in the failure path. -/
theorem check_stock_skips_unknown_items_witness :
    check_stock_availability [⟨1, "A", 10, 5, none⟩] ([] ++ (99, ⟨"Ghost", 7, 2⟩) :: []) =
        check_stock_availability [⟨1, "A", 10, 5, none⟩] ([] ++ []) ∧
      WriteOp.insertLine (newOrderId ⟨[⟨1, "A", 10, 5, none⟩], [], []⟩) 99 2 (7 * (2 : Int)) ∈
        checkoutOps ⟨[⟨1, "A", 10, 5, none⟩], [], []⟩ ([] ++ (99, ⟨"Ghost", 7, 2⟩) :: [])
          3 ⟨2024, 3, 15, 12, 0, 0⟩ ∧
      opFails ⟨[⟨1, "A", 10, 5, none⟩], [], []⟩
        (.insertLine (newOrderId ⟨[⟨1, "A", 10, 5, none⟩], [], []⟩) 99 2 (7 * (2 : Int))) =
        true ∧
      checkout ⟨[⟨1, "A", 10, 5, none⟩], [], []⟩ ([] ++ (99, ⟨"Ghost", 7, 2⟩) :: [])
          3 ⟨2024, 3, 15, 12, 0, 0⟩ none =
        ((runOps ⟨[⟨1, "A", 10, 5, none⟩], [], []⟩
            (checkoutOps ⟨[⟨1, "A", 10, 5, none⟩], [], []⟩
              ([] ++ (99, ⟨"Ghost", 7, 2⟩) :: []) 3 ⟨2024, 3, 15, 12, 0, 0⟩) none).1,
         .dbError) :=
  check_stock_skips_unknown_items ⟨[⟨1, "A", 10, 5, none⟩], [], []⟩ [] []
    (99, ⟨"Ghost", 7, 2⟩) 3 ⟨2024, 3, 15, 12, 0, 0⟩ (by decide) (by decide) (by decide)

/-! ## Stock conservation of checkout -/

/-- Total stock decremented by a write-op list for a given item id. -/
def opsDecFor (ops : List WriteOp) (iid : Nat) : Int :=
  (ops.map fun op =>
    match op with
    | .decStock i q => if i = iid then (q : Int) else 0
    | _ => 0).sum

/-- Running a write-op list maps each item to itself with its stock
decremented by the ops' total decrement for its id. -/
theorem foldl_applyOp_items (ops : List WriteOp) :
    ∀ st : DBState, (ops.foldl applyOp st).items =
      st.items.map fun it => { it with stock := it.stock - opsDecFor ops it.id } := by
  induction ops with
  | nil =>
    intro st
    simp [opsDecFor]
  | cons op rest ih =>
    intro st
    show (rest.foldl applyOp (applyOp st op)).items = _
    rw [ih]
    cases op with
    | decStock iid q =>
      show ((st.items.map _).map _) = _
      rw [List.map_map]
      apply List.map_congr_left
      intro it _
      by_cases h : it.id = iid
      · simp [Function.comp, opsDecFor, h]
        omega
      · have hb : (it.id == iid) = false := by simp [h]
        simp [Function.comp, opsDecFor, hb, h]
        intro e
        exact absurd e.symm h
    | insertOrder cid date total =>
      apply List.map_congr_left
      intro it _
      simp [opsDecFor]
    | ensureOrderCode oid =>
      apply List.map_congr_left
      intro it _
      simp [opsDecFor]
    | insertLine oid iid q s =>
      apply List.map_congr_left
      intro it _
      simp [opsDecFor]

/-- Sum of the quantities the cart requests for a given item id. -/
def cartQtyFor (cart : Cart) (iid : Nat) : Int :=
  (cart.map fun e => if e.1 = iid then (e.2.qty : Int) else 0).sum

/-- The commit phase decrements each item id by exactly the cart's total
request for it. -/
theorem opsDecFor_checkoutOps (st : DBState) (cart : Cart) (cid : Nat)
    (now : DateTime) (iid : Nat) :
    opsDecFor (checkoutOps st cart cid now) iid = cartQtyFor cart iid := by
  show opsDecFor (_ :: _ :: cart.flatMap _) iid = _
  have haux : ∀ c : Cart, opsDecFor (c.flatMap fun e =>
      [.insertLine (newOrderId st) e.1 e.2.qty (e.2.price * (e.2.qty : Int)),
       .decStock e.1 e.2.qty]) iid = cartQtyFor c iid := by
    intro c
    induction c with
    | nil => rfl
    | cons a r ih =>
      simp [opsDecFor, cartQtyFor] at ih ⊢
      omega
  simp [opsDecFor, cartQtyFor] at haux ⊢
  exact haux cart

/-- Statement-run decrements are sums of non-negative quantities. -/
theorem opsDecFor_nonneg (ops : List WriteOp) (iid : Nat) :
    0 ≤ opsDecFor ops iid := by
  unfold opsDecFor
  apply List.sum_nonneg
  intro x hx
  obtain ⟨op, _, rfl⟩ := List.mem_map.mp hx
  cases op with
  | decStock i q => by_cases h : i = iid <;> simp [h]
  | insertOrder a b c => simp
  | ensureOrderCode a => simp
  | insertLine a b c d => simp

/-- A prefix of a statement run decrements no more than the full run. -/
theorem opsDecFor_take_le (ops : List WriteOp) (k : Nat) (iid : Nat) :
    opsDecFor (ops.take k) iid ≤ opsDecFor ops iid := by
  have hsplit : opsDecFor ops iid =
      opsDecFor (ops.take k) iid + opsDecFor (ops.drop k) iid := by
    conv_lhs => rw [← List.take_append_drop k ops]
    unfold opsDecFor
    rw [List.map_append, List.sum_append]
  have h2 := opsDecFor_nonneg (ops.drop k) iid
  omega

/-- A cart none of whose entries mention `iid` requests nothing for it. -/
theorem cartQtyFor_of_absent (cart : Cart) (iid : Nat)
    (h : ∀ e ∈ cart, e.1 ≠ iid) : cartQtyFor cart iid = 0 := by
  unfold cartQtyFor
  apply List.sum_eq_zero
  intro x hx
  obtain ⟨e, he, rfl⟩ := List.mem_map.mp hx
  simp [h e he]

/-- With pairwise-distinct cart keys, the cart's request for an id is the
quantity of its unique entry. -/
theorem cartQtyFor_of_find (cart : Cart) (iid : Nat) (e : Nat × CartData)
    (hwf : WfCart cart) (hfind : cart.find? (fun x => x.1 == iid) = some e) :
    cartQtyFor cart iid = (e.2.qty : Int) := by
  induction cart with
  | nil => cases hfind
  | cons a rest ih =>
    have hwf' : WfCart rest := (List.nodup_cons.mp hwf).2
    by_cases h : a.1 = iid
    · have hb : (a.1 == iid) = true := by simp [h]
      rw [List.find?_cons_of_pos (p := fun x : Nat × CartData => x.1 == iid) rest hb]
        at hfind
      cases hfind
      have hrest : cartQtyFor rest iid = 0 := by
        apply cartQtyFor_of_absent
        intro x hx hxk
        have hmm : e.1 ∈ rest.map (·.1) := by
          rw [h, ← hxk]
          exact List.mem_map_of_mem _ hx
        exact (List.nodup_cons.mp hwf).1 hmm
      unfold cartQtyFor at hrest ⊢
      simp [h] at hrest ⊢
      omega
    · have hb : (a.1 == iid) = false := by simp [h]
      rw [List.find?_cons_of_neg _ (by simp [hb])] at hfind
      have := ih hwf' hfind
      unfold cartQtyFor at this ⊢
      simp [h, this]

/-- With pairwise-distinct item ids, fetching an item's own id finds it. -/
theorem find_item_self (items : List Item) (it : Item)
    (hnodup : (items.map (·.id)).Nodup) (hmem : it ∈ items) :
    find_item items it.id = some it := by
  induction items with
  | nil => cases hmem
  | cons a rest ih =>
    rcases List.mem_cons.mp hmem with rfl | hmem'
    · exact List.find?_cons_of_pos _ (by simp)
    · have hne : a.id ≠ it.id := by
        intro h
        have : a.id ∈ rest.map (·.id) := by
          rw [h]
          exact List.mem_map_of_mem _ hmem'
        exact (List.nodup_cons.mp hnodup).1 this
      unfold find_item
      rw [List.find?_cons_of_neg _ (by simp [hne])]
      exact ih (List.nodup_cons.mp hnodup).2 hmem'

/-- A passing re-check bounds every cart entry's quantity by the stock of
its (existing) item. -/
theorem check_stock_empty_bound (items : List Item) (cart : Cart)
    (h : check_stock_availability items cart = []) :
    ∀ e ∈ cart, ∀ it, find_item items e.1 = some it → (e.2.qty : Int) ≤ it.stock := by
  induction cart with
  | nil => intro e he; cases he
  | cons a rest ih =>
    have hsplit : (match find_item items a.1 with
        | some it => if (a.2.qty : Int) > it.stock then [(it.name, a.2.qty, it.stock)] else []
        | none => []) ++ check_stock_availability items rest = [] := h
    rcases List.append_eq_nil.mp hsplit with ⟨hhead, htail⟩
    intro e he it hit
    rcases List.mem_cons.mp he with rfl | hmem
    · rw [hit] at hhead
      by_cases hq : (e.2.qty : Int) > it.stock
      · simp [hq] at hhead
      · omega
    · exact ih htail e hmem it hit

/-- A committed checkout never drives any stock negative: either a
validation aborts it with the state unchanged, or every decrement was
bounded by the just-re-checked stock. -/
theorem checkout_preserves_stock_nonneg (st : DBState) (cart : Cart) (cid : Nat)
    (now : DateTime) (hst : StocksNonneg st) (hids : NodupItemIds st)
    (hwf : WfCart cart) : StocksNonneg (checkout st cart cid now none).1 := by
  by_cases hcart : cart = []
  · simp [checkout, hcart]
    exact hst
  by_cases hins : check_stock_availability st.items cart = []
  · by_cases htot : cartTotal cart ≤ 0
    · have h2 : ¬(check_stock_availability st.items cart ≠ []) := by simp [hins]
      simp [checkout, hcart, h2, htot]
      exact hst
    · intro it' hit'
      rw [checkout_commit_state st cart cid now none hcart hins (by omega)] at hit'
      obtain ⟨k, hk⟩ := runOps_prefix st (checkoutOps st cart cid now) none
      rw [hk, foldl_applyOp_items] at hit'
      obtain ⟨it, hmem, rfl⟩ := List.mem_map.mp hit'
      show 0 ≤ it.stock - opsDecFor ((checkoutOps st cart cid now).take k) it.id
      have hle : opsDecFor ((checkoutOps st cart cid now).take k) it.id ≤
          opsDecFor (checkoutOps st cart cid now) it.id :=
        opsDecFor_take_le (checkoutOps st cart cid now) k it.id
      rw [opsDecFor_checkoutOps] at hle
      have hnn := opsDecFor_nonneg ((checkoutOps st cart cid now).take k) it.id
      rcases hfind : cart.find? (fun x => x.1 == it.id) with _ | e
      · have hz : cartQtyFor cart it.id = 0 := by
          apply cartQtyFor_of_absent
          intro e he
          have := List.find?_eq_none.mp hfind e he
          simpa using this
        rw [hz] at hle
        have := hst it hmem
        omega
      · rw [cartQtyFor_of_find cart it.id e hwf hfind] at hle
        have hkey : e.1 = it.id := by
          have := List.find?_some (p := fun x : Nat × CartData => x.1 == it.id) hfind
          simpa using this
        have hemem : e ∈ cart := List.mem_of_find?_eq_some hfind
        have hfi : find_item st.items e.1 = some it := by
          rw [hkey]
          exact find_item_self st.items it hids hmem
        have := check_stock_empty_bound st.items cart hins e hemem it hfi
        omega
  · have h2 : check_stock_availability st.items cart ≠ [] := hins
    simp [checkout, hcart, h2]
    exact hst

/-! ## Dict and edit-session lemmas -/

/-- An element of `dictSet c k v` is either an untouched entry of `c` with
a different key, or carries key `k` and payload `v`. -/
theorem mem_dictSet (c : Cart) (k : Nat) (v : CartData) (x : Nat × CartData)
    (hx : x ∈ dictSet c k v) : (x ∈ c ∧ x.1 ≠ k) ∨ (x.1 = k ∧ x.2 = v) := by
  unfold dictSet at hx
  split at hx
  case isTrue hany =>
    obtain ⟨e, he, rfl⟩ := List.mem_map.mp hx
    by_cases h : e.1 = k
    · right
      simp [h]
    · left
      simp [h]
      exact he
  case isFalse hany =>
    rcases List.mem_append.mp hx with h | h
    · left
      refine ⟨h, ?_⟩
      intro hk
      exact hany (List.any_eq_true.mpr ⟨x, h, by simp [hk]⟩)
    · right
      simp at h
      simp [h]

/-- `dictSet` preserves pairwise-distinct keys. -/
theorem wfcart_dictSet (c : Cart) (k : Nat) (v : CartData) (h : WfCart c) :
    WfCart (dictSet c k v) := by
  unfold WfCart dictSet
  split
  case isTrue hany =>
    have heq : (c.map fun e => if e.1 == k then (e.1, v) else e).map (·.1) =
        c.map (·.1) := by
      rw [List.map_map]
      apply List.map_congr_left
      intro e _
      by_cases he : e.1 = k <;> simp [he, Function.comp]
    rw [heq]
    exact h
  case isFalse hany =>
    rw [List.map_append, List.nodup_append]
    refine ⟨h, by simp, ?_⟩
    intro a ha hb
    have hak : a = k := by simpa using hb
    subst hak
    obtain ⟨e, hemem, hek⟩ := List.mem_map.mp ha
    exact hany (List.any_eq_true.mpr ⟨e, hemem, by simp [hek]⟩)

/-- In a cart with pairwise-distinct keys, looking up a member's key finds
exactly that member. -/
theorem find?_self_of_wf (c : Cart) (e : Nat × CartData) (hwf : WfCart c)
    (he : e ∈ c) : c.find? (fun x => x.1 == e.1) = some e := by
  induction c with
  | nil => cases he
  | cons a rest ih =>
    rcases List.mem_cons.mp he with rfl | hmem
    · exact List.find?_cons_of_pos _ (by simp)
    · have hne : a.1 ≠ e.1 := by
        intro h
        have : a.1 ∈ rest.map (·.1) := by
          rw [h]
          exact List.mem_map_of_mem _ hmem
        exact (List.nodup_cons.mp hwf).1 this
      rw [List.find?_cons_of_neg _ (by simp [hne])]
      exact ih (List.nodup_cons.mp hwf).2 hmem

/-- Setting a quantity in the Nat-dict projection of a cart is the
projection of setting the full payload in the cart. -/
theorem natDictSet_map_proj (c : Cart) (k : Nat) (n : String) (p : Int) (q : Nat) :
    natDictSet (c.map fun e => (e.1, e.2.qty)) k q =
      (dictSet c k ⟨n, p, q⟩).map fun e => (e.1, e.2.qty) := by
  unfold natDictSet dictSet
  have hany : ((c.map fun e => (e.1, e.2.qty)).any fun e => e.1 == k) =
      (c.any fun e => e.1 == k) := by
    induction c with
    | nil => rfl
    | cons a r ih => simp only [List.map_cons, List.any_cons, ih]
  rw [hany]
  split
  · rw [List.map_map, List.map_map]
    apply List.map_congr_left
    intro e _
    by_cases h : e.1 = k <;> simp [h, Function.comp]
  · rw [List.map_append]
    rfl

/-- `original_cart` is the quantity projection of the initial `edit_cart`:
both dicts are built by the same assignments over the same joined rows. -/
theorem loadOriginal_eq_proj (st : DBState) (oid : Nat) :
    loadOriginalCart st oid = (loadEditCart st oid).map fun e => (e.1, e.2.qty) := by
  unfold loadOriginalCart loadEditCart
  have haux : ∀ (l : List (Nat × String × Int × Nat)) (c : Cart),
      l.foldl (fun c x => natDictSet c x.1 x.2.2.2) (c.map fun e => (e.1, e.2.qty)) =
        (l.foldl (fun c x => dictSet c x.1 ⟨x.2.1, x.2.2.1, x.2.2.2⟩) c).map
          fun e => (e.1, e.2.qty) := by
    intro l
    induction l with
    | nil => intro c; rfl
    | cons x r ih =>
      intro c
      show r.foldl _ (natDictSet (c.map fun e => (e.1, e.2.qty)) x.1 x.2.2.2) = _
      rw [natDictSet_map_proj c x.1 x.2.1 x.2.2.1 x.2.2.2]
      exact ih _
  have h0 := haux (loadJoinedLines st oid) []
  simpa using h0

/-- The initial `edit_cart` has pairwise-distinct keys: it is a Python
dict built by assignment. -/
theorem wf_loadEditCart (st : DBState) (oid : Nat) : WfCart (loadEditCart st oid) := by
  unfold loadEditCart
  have haux : ∀ (l : List (Nat × String × Int × Nat)) (c : Cart), WfCart c →
      WfCart (l.foldl (fun c x => dictSet c x.1 ⟨x.2.1, x.2.2.1, x.2.2.2⟩) c) := by
    intro l
    induction l with
    | nil => intro c h; exact h
    | cons x r ih =>
      intro c h
      exact ih _ (wfcart_dictSet c x.1 _ h)
  exact haux _ [] (by simp [WfCart])

/-- For every line of the initial `edit_cart`, the recorded original
quantity is that line's quantity. -/
theorem orig_qty_of_mem (st : DBState) (oid : Nat) (e : Nat × CartData)
    (he : e ∈ loadEditCart st oid) :
    natDictGet (loadOriginalCart st oid) e.1 = e.2.qty := by
  rw [loadOriginal_eq_proj]
  have hfind := find?_self_of_wf (loadEditCart st oid) e (wf_loadEditCart st oid) he
  unfold natDictGet
  rw [List.find?_map]
  show ((((loadEditCart st oid).find? fun x => x.1 == e.1).map _).map _).getD 0 = _
  rw [hfind]
  rfl

/-- A successful dict lookup exhibits the membership of its entry. -/
theorem dictGet_some_mem (c : Cart) (k : Nat) (d : CartData)
    (h : dictGet c k = some d) : (k, d) ∈ c := by
  unfold dictGet at h
  rcases hf : c.find? fun e => e.1 == k with _ | y
  · rw [hf] at h
    cases h
  · rw [hf] at h
    simp at h
    have hk : y.1 = k := by
      simpa using List.find?_some (p := fun e : Nat × CartData => e.1 == k) hf
    have hm := List.mem_of_find?_eq_some hf
    have hy : y = (k, d) := by
      cases y
      simp at hk h
      simp [hk, h]
    rw [← hy]
    exact hm

/-- The edit-session invariant: every line's quantity is bounded by
current stock plus the originally ordered quantity. -/
def EditInv (st : DBState) (orig : List (Nat × Nat)) (cart : Cart) : Prop :=
  ∀ e ∈ cart, (e.2.qty : Int) ≤
    (get_item_stock st.items e.1).getD 0 + (natDictGet orig e.1 : Int)

/-- The freshly loaded edit cart satisfies the session invariant whenever
stocks are non-negative. -/
theorem editInv_init (st : DBState) (oid : Nat) (hst : StocksNonneg st) :
    EditInv st (loadOriginalCart st oid) (loadEditCart st oid) := by
  intro e he
  rw [orig_qty_of_mem st oid e he]
  have hge : 0 ≤ (get_item_stock st.items e.1).getD 0 := by
    rcases hg : get_item_stock st.items e.1 with _ | s
    · simp
    · obtain ⟨it, hit, hits⟩ : ∃ it, find_item st.items e.1 = some it ∧ it.stock = s := by
        unfold get_item_stock at hg
        rcases hf : find_item st.items e.1 with _ | it
        · rw [hf] at hg
          cases hg
        · rw [hf] at hg
          exact ⟨it, rfl, by simpa using hg⟩
      have hmem := List.mem_of_find?_eq_some hit
      have := hst it hmem
      simp [hits ▸ this]
  omega

/-- Every edit-popup interaction preserves the session invariant. -/
theorem editInv_applyEditOp (st : DBState) (orig : List (Nat × Nat)) (cart : Cart)
    (op : EditOp) (hinv : EditInv st orig cart) :
    EditInv st orig (applyEditOp st orig cart op) := by
  cases op with
  | addNew iid =>
    simp only [applyEditOp]
    split
    · exact hinv
    case h_2 it hfi =>
      have hstock : (get_item_stock st.items iid).getD 0 = it.stock := by
        unfold get_item_stock
        rw [hfi]
        rfl
      split
      · exact hinv
      case isFalse hge =>
        split
        case h_1 d hd =>
          intro x hx
          rcases mem_dictSet cart iid _ x hx with ⟨hxc, _⟩ | ⟨hk, hv⟩
          · exact hinv x hxc
          · rw [hk, hv, hstock]
            rw [hd] at hge
            simp at hge ⊢
            omega
        case h_2 hd =>
          intro x hx
          rcases mem_dictSet cart iid _ x hx with ⟨hxc, _⟩ | ⟨hk, hv⟩
          · exact hinv x hxc
          · rw [hk, hv, hstock]
            rw [hd] at hge
            simp at hge ⊢
            omega
  | incQty iid =>
    simp only [applyEditOp]
    split
    · exact hinv
    case h_2 d hd =>
      split
      · exact hinv
      case isFalse hge =>
        intro x hx
        rcases mem_dictSet cart iid _ x hx with ⟨hxc, _⟩ | ⟨hk, hv⟩
        · exact hinv x hxc
        · rw [hk, hv]
          simp at hge ⊢
          omega
  | decQty iid =>
    simp only [applyEditOp]
    split
    · exact hinv
    case h_2 d hd =>
      split
      · intro x hx
        exact hinv x (List.mem_of_mem_filter hx)
      · intro x hx
        rcases mem_dictSet cart iid _ x hx with ⟨hxc, _⟩ | ⟨hk, hv⟩
        · exact hinv x hxc
        · have hdm := dictGet_some_mem cart iid d hd
          have hbound := hinv (iid, d) hdm
          rw [hk, hv]
          simp at hbound ⊢
          omega

/-- Every edit-popup interaction preserves pairwise-distinct cart keys. -/
theorem wfcart_applyEditOp (st : DBState) (orig : List (Nat × Nat)) (cart : Cart)
    (op : EditOp) (hwf : WfCart cart) : WfCart (applyEditOp st orig cart op) := by
  cases op with
  | addNew iid =>
    simp only [applyEditOp]
    split
    · exact hwf
    · split
      · exact hwf
      · split
        · exact wfcart_dictSet cart iid _ hwf
        · exact wfcart_dictSet cart iid _ hwf
  | incQty iid =>
    simp only [applyEditOp]
    split
    · exact hwf
    · split
      · exact hwf
      · exact wfcart_dictSet cart iid _ hwf
  | decQty iid =>
    simp only [applyEditOp]
    split
    · exact hwf
    · split
      · exact List.Nodup.sublist (List.Sublist.map _ (List.filter_sublist cart)) hwf
      · exact wfcart_dictSet cart iid _ hwf

/-- A whole edit session preserves the invariant and well-formedness. -/
theorem editInv_foldl (st : DBState) (orig : List (Nat × Nat)) (ops : List EditOp) :
    ∀ cart : Cart, EditInv st orig cart → WfCart cart →
      EditInv st orig (ops.foldl (applyEditOp st orig) cart) ∧
        WfCart (ops.foldl (applyEditOp st orig) cart) := by
  induction ops with
  | nil => intro cart h1 h2; exact ⟨h1, h2⟩
  | cons op rest ih =>
    intro cart h1 h2
    exact ih _ (editInv_applyEditOp st orig cart op h1)
      (wfcart_applyEditOp st orig cart op h2)

/-- The first `save_changes` loop rewrites each item's stock by the delta
of its unique original entry (no entry: unchanged). -/
theorem foldl_origAdjust (cart : Cart) :
    ∀ orig : List (Nat × Nat), (orig.map (·.1)).Nodup →
      ∀ items : List Item, orig.foldl (origAdjust cart) items =
        items.map fun it =>
          match orig.find? fun e => e.1 == it.id with
          | some e =>
            { it with stock := it.stock + ((e.2 : Int) - (newQtyFor cart e.1 : Int)) }
          | none => it := by
  intro orig
  induction orig with
  | nil =>
    intro _ items
    simp
  | cons a rest ih =>
    intro hnodup items
    show rest.foldl (origAdjust cart) (origAdjust cart items a) = _
    rw [ih (List.nodup_cons.mp hnodup).2]
    have hstep : origAdjust cart items a = items.map fun it =>
        if it.id == a.1 then
          { it with stock := it.stock + ((a.2 : Int) - (newQtyFor cart a.1 : Int)) }
        else it := by
      unfold origAdjust
      split
      · rfl
      case isFalse h0 =>
        have hz : (a.2 : Int) - (newQtyFor cart a.1 : Int) = 0 := by omega
        have : ∀ it ∈ items, (if it.id == a.1 then
            { it with stock := it.stock + ((a.2 : Int) - (newQtyFor cart a.1 : Int)) }
          else it) = it := by
          intro it _
          split
          · simp [hz]
          · rfl
        rw [List.map_congr_left this]
        exact (List.map_id items).symm
    rw [hstep, List.map_map]
    apply List.map_congr_left
    intro it _
    by_cases hid : a.1 = it.id
    · rw [List.find?_cons_of_pos (p := fun e : Nat × Nat => e.1 == it.id) rest
        (by simp [hid])]
      have hb : (it.id == a.1) = true := by simp [hid]
      have hnone : rest.find? (fun e => e.1 == it.id) = none := by
        apply List.find?_eq_none.mpr
        intro x hx
        simp
        intro hxk
        have hmm : a.1 ∈ rest.map (·.1) := by
          rw [hid, ← hxk]
          exact List.mem_map_of_mem _ hx
        exact absurd hmm (List.nodup_cons.mp hnodup).1
      simp [Function.comp, hb, hnone]
    · rw [List.find?_cons_of_neg (p := fun e : Nat × Nat => e.1 == it.id) rest
        (by simp [hid])]
      have hb : (it.id == a.1) = false := by
        simp
        intro h
        exact hid h.symm
      simp [Function.comp, hb]

/-- The second `save_changes` loop deducts, for each item with a (unique)
edit-cart entry that is not originally ordered, that entry's quantity. -/
theorem foldl_newAdjust (orig : List (Nat × Nat)) :
    ∀ cart : Cart, WfCart cart →
      ∀ items : List Item, cart.foldl (newAdjust orig) items =
        items.map fun it =>
          match cart.find? fun e => e.1 == it.id with
          | some e =>
            if natDictHas orig e.1 then it
            else { it with stock := it.stock - (e.2.qty : Int) }
          | none => it := by
  intro cart
  induction cart with
  | nil =>
    intro _ items
    simp
  | cons a rest ih =>
    intro hnodup items
    show rest.foldl (newAdjust orig) (newAdjust orig items a) = _
    rw [ih (List.nodup_cons.mp hnodup).2]
    have hstep : newAdjust orig items a = items.map fun it =>
        if it.id == a.1 then
          (if natDictHas orig a.1 then it
           else { it with stock := it.stock - (a.2.qty : Int) })
        else it := by
      unfold newAdjust
      split
      case isTrue h0 =>
        have hh : natDictHas orig a.1 = false := by
          rcases hv : natDictHas orig a.1 with _ | _
          · rfl
          · rw [hv] at h0
            cases h0
        rw [hh]
        simp
      case isFalse h0 =>
        have hh : natDictHas orig a.1 = true := by
          rcases hv : natDictHas orig a.1 with _ | _
          · rw [hv] at h0
            simp at h0
          · rfl
        rw [hh]
        have : ∀ it ∈ items, (if it.id == a.1 then
            (if (true : Bool) = true then it
             else { it with stock := it.stock - (a.2.qty : Int) })
          else it) = it := by
          intro it _
          split <;> rfl
        rw [List.map_congr_left this]
        exact (List.map_id items).symm
    rw [hstep, List.map_map]
    apply List.map_congr_left
    intro it _
    by_cases hid : a.1 = it.id
    · rw [List.find?_cons_of_pos (p := fun e : Nat × CartData => e.1 == it.id) rest
        (by simp [hid])]
      have hb : (it.id == a.1) = true := by simp [hid]
      have hnone : rest.find? (fun e => e.1 == it.id) = none := by
        apply List.find?_eq_none.mpr
        intro x hx
        simp
        intro hxk
        have hmm : a.1 ∈ rest.map (·.1) := by
          rw [hid, ← hxk]
          exact List.mem_map_of_mem _ hx
        exact absurd hmm (List.nodup_cons.mp hnodup).1
      by_cases hhas : natDictHas orig a.1 = true
      · simp [Function.comp, hb, hnone, hhas]
      · simp [Function.comp, hb, hnone, hhas]
    · rw [List.find?_cons_of_neg (p := fun e : Nat × CartData => e.1 == it.id) rest
        (by simp [hid])]
      have hb : (it.id == a.1) = false := by
        simp
        intro h
        exact hid h.symm
      simp [Function.comp, hb]

/-- A save whose edit cart satisfies the session bound
`newQty ≤ current stock + originalQty` leaves every stock non-negative. -/
theorem save_changes_stock_nonneg (st : DBState) (oid : Nat)
    (orig : List (Nat × Nat)) (cart : Cart) (hwf : WfCart cart)
    (horig : (orig.map (·.1)).Nodup) (hids : NodupItemIds st)
    (hst : StocksNonneg st) (hinv : EditInv st orig cart) :
    StocksNonneg (save_changes st oid orig cart).1 := by
  by_cases hc : cart = []
  · simp [save_changes, hc]
    exact hst
  · have hitems : (save_changes st oid orig cart).1.items =
        cart.foldl (newAdjust orig) (orig.foldl (origAdjust cart) st.items) := by
      simp [save_changes, hc]
    intro it' hit'
    rw [hitems, foldl_origAdjust cart orig horig st.items,
      foldl_newAdjust orig cart hwf, List.map_map] at hit'
    obtain ⟨it, hmem, rfl⟩ := List.mem_map.mp hit'
    have hfind_it : find_item st.items it.id = some it := find_item_self st.items it hids hmem
    rcases ho : orig.find? (fun e => e.1 == it.id) with _ | e0 <;>
      rcases hn : cart.find? (fun e => e.1 == it.id) with _ | e1
    · simp [Function.comp, ho, hn]
      exact hst it hmem
    · have he1k : e1.1 = it.id := by
        simpa using List.find?_some (p := fun e : Nat × CartData => e.1 == it.id) hn
      have he1mem : e1 ∈ cart := List.mem_of_find?_eq_some hn
      have hhas : natDictHas orig e1.1 = false := by
        rcases hv : natDictHas orig e1.1 with _ | _
        · rfl
        · exfalso
          obtain ⟨x, hxmem, hxk⟩ := List.any_eq_true.mp hv
          have hx1 : x.1 = it.id := by
            have : x.1 = e1.1 := by simpa using hxk
            rw [this, he1k]
          have := List.find?_eq_none.mp ho x hxmem
          simp [hx1] at this
      have hbound := hinv e1 he1mem
      rw [he1k] at hbound
      have hstock : (get_item_stock st.items it.id).getD 0 = it.stock := by
        unfold get_item_stock
        rw [hfind_it]
        rfl
      have hnat : natDictGet orig it.id = 0 := by
        unfold natDictGet
        rw [show (orig.find? fun e => e.1 == it.id) = none from ho]
        rfl
      rw [hstock, hnat] at hbound
      simp [Function.comp, ho, hn, hhas]
      omega
    · have he0k : e0.1 = it.id := by
        simpa using List.find?_some (p := fun e : Nat × Nat => e.1 == it.id) ho
      have hnew : newQtyFor cart e0.1 = 0 := by
        unfold newQtyFor dictGet
        rw [he0k, show (cart.find? fun e => e.1 == it.id) = none from hn]
        rfl
      have hgs := hst it hmem
      simp [Function.comp, ho, hn, hnew]
      omega
    · have he0k : e0.1 = it.id := by
        simpa using List.find?_some (p := fun e : Nat × Nat => e.1 == it.id) ho
      have he1k : e1.1 = it.id := by
        simpa using List.find?_some (p := fun e : Nat × CartData => e.1 == it.id) hn
      have he0mem := List.mem_of_find?_eq_some ho
      have he1mem := List.mem_of_find?_eq_some hn
      have hhas : natDictHas orig e1.1 = true :=
        List.any_eq_true.mpr ⟨e0, he0mem, by simp [he0k, he1k]⟩
      have hnew : newQtyFor cart e0.1 = e1.2.qty := by
        unfold newQtyFor dictGet
        rw [he0k, show (cart.find? fun e => e.1 == it.id) = some e1 from hn]
        rfl
      have hbound := hinv e1 he1mem
      rw [he1k] at hbound
      have hstock : (get_item_stock st.items it.id).getD 0 = it.stock := by
        unfold get_item_stock
        rw [hfind_it]
        rfl
      have hnat : natDictGet orig it.id = e0.2 := by
        unfold natDictGet
        rw [show (orig.find? fun e => e.1 == it.id) = some e0 from ho]
        rfl
      rw [hstock, hnat] at hbound
      simp [Function.comp, ho, hn, hhas, hnew]
      omega

/-- A full order-edit call — lock check, session interactions, save —
leaves every stock non-negative, because the interactive handlers bound
every quantity by current stock + original quantity and the save applies
exactly those deltas. -/
theorem edit_order_preserves_stock (st : DBState) (oid : Nat) (ops : List EditOp)
    (hst : StocksNonneg st) (hids : NodupItemIds st) :
    StocksNonneg (edit_order st oid ops).1 := by
  have hmain : ∀ st1 : DBState, st1.items = st.items →
      StocksNonneg (save_changes st1 oid (loadOriginalCart st1 oid)
        (ops.foldl (applyEditOp st1 (loadOriginalCart st1 oid))
          (loadEditCart st1 oid))).1 := by
    intro st1 hitems
    have hst1 : StocksNonneg st1 := by
      intro it hit
      exact hst it (hitems ▸ hit)
    have hids1 : NodupItemIds st1 := by
      unfold NodupItemIds
      rw [hitems]
      exact hids
    have h0 := editInv_init st1 oid hst1
    have hwf0 := wf_loadEditCart st1 oid
    have hfold := editInv_foldl st1 (loadOriginalCart st1 oid) ops _ h0 hwf0
    have horig : ((loadOriginalCart st1 oid).map (·.1)).Nodup := by
      rw [loadOriginal_eq_proj, List.map_map]
      exact hwf0
    exact save_changes_stock_nonneg st1 oid _ _ hfold.2 horig hids1 hst1 hfold.1
  unfold edit_order
  split
  · exact hst
  · exact hmain { st with orders := (ensure_order_code st.orders oid).2 } rfl

/-- Claim C2 (amended): the save step of an order edit performs no
availability re-check and never rejects for stock — its only outcomes are
the Completed-order lock, the empty-edit validation, and an unconditional
save.  The availability bound `newQty ≤ current stock + originalQty` is
enforced only by the popup's interactive add/increment handlers, and for
every edit driven through those handlers the committed save leaves every
item's stock ≥ 0. -/
theorem edit_session_stock_nonneg (st : DBState) (oid : Nat) (ops : List EditOp)
    (hst : StocksNonneg st) (hids : NodupItemIds st) :
    StocksNonneg (edit_order st oid ops).1 ∧
      ((edit_order st oid ops).2 = .locked ∨
        (edit_order st oid ops).2 = .emptyEdit ∨
        (edit_order st oid ops).2 = .saved) := by
  refine ⟨edit_order_preserves_stock st oid ops hst hids, ?_⟩
  rcases (edit_order st oid ops).2 <;> simp

/-- One item with stock 4 and a pending one-line order over it. -/
def exSt3 : DBState :=
  { items := [⟨1, "A", 50, 4, some "ITM-00001"⟩],
    orders := [⟨1, 1, exNow, "Pending", 50, some "ORD-00001"⟩],
    orderLines := [⟨1, 1, 1, 50⟩] }

/-- Witness for C2's amended theorem: one increment inside the popup and a
save, on a concrete state. -/
theorem edit_session_stock_nonneg_witness :
    StocksNonneg (edit_order exSt3 1 [.incQty 1]).1 ∧
      ((edit_order exSt3 1 [.incQty 1]).2 = .locked ∨
        (edit_order exSt3 1 [.incQty 1]).2 = .emptyEdit ∨
        (edit_order exSt3 1 [.incQty 1]).2 = .saved) :=
  edit_session_stock_nonneg exSt3 1 [.incQty 1] (by decide) (by decide)

/-! ## Item ids are never changed by any operation -/

/-- The first save loop never changes the items' id column. -/
theorem ids_foldl_origAdjust (cart : Cart) :
    ∀ (orig : List (Nat × Nat)) (items : List Item),
      (orig.foldl (origAdjust cart) items).map (·.id) = items.map (·.id) := by
  intro orig
  induction orig with
  | nil => intro items; rfl
  | cons a rest ih =>
    intro items
    show (rest.foldl (origAdjust cart) (origAdjust cart items a)).map (·.id) = _
    rw [ih]
    unfold origAdjust
    split
    · rw [List.map_map]
      apply List.map_congr_left
      intro it _
      simp only [Function.comp]
      split <;> rfl
    · rfl

/-- The second save loop never changes the items' id column. -/
theorem ids_foldl_newAdjust (orig : List (Nat × Nat)) :
    ∀ (cart : Cart) (items : List Item),
      (cart.foldl (newAdjust orig) items).map (·.id) = items.map (·.id) := by
  intro cart
  induction cart with
  | nil => intro items; rfl
  | cons a rest ih =>
    intro items
    show (rest.foldl (newAdjust orig) (newAdjust orig items a)).map (·.id) = _
    rw [ih]
    unfold newAdjust
    split
    · rw [List.map_map]
      apply List.map_congr_left
      intro it _
      simp only [Function.comp]
      split <;> rfl
    · rfl

/-- Saving an edit never changes the items' id column. -/
theorem save_changes_items_ids (st : DBState) (oid : Nat) (orig : List (Nat × Nat))
    (cart : Cart) :
    ((save_changes st oid orig cart).1.items).map (·.id) = st.items.map (·.id) := by
  unfold save_changes
  split
  · rfl
  · show ((cart.foldl (newAdjust orig) (orig.foldl (origAdjust cart) st.items)).map (·.id)) = _
    rw [ids_foldl_newAdjust, ids_foldl_origAdjust]

/-- A status update never touches the items table. -/
theorem update_status_items (st : DBState) (oid : Nat) (s : String) :
    (update_status st oid s).items = st.items := by
  unfold update_status
  split <;> rfl

/-- No committed operation of the order engine changes the items' ids. -/
theorem items_ids_applyAppOp (st : DBState) (op : AppOp) :
    ((applyAppOp st op).items).map (·.id) = st.items.map (·.id) := by
  cases op with
  | checkoutOp cart cid now =>
    show ((checkout st cart cid now none).1.items).map (·.id) = _
    by_cases hcart : cart = []
    · simp [checkout, hcart]
    by_cases hins : check_stock_availability st.items cart = []
    · by_cases htot : cartTotal cart ≤ 0
      · have h2 : ¬(check_stock_availability st.items cart ≠ []) := by simp [hins]
        simp [checkout, hcart, h2, htot]
      · rw [checkout_commit_state st cart cid now none hcart hins (by omega)]
        obtain ⟨k, hk⟩ := runOps_prefix st (checkoutOps st cart cid now) none
        rw [hk, foldl_applyOp_items, List.map_map]
        apply List.map_congr_left
        intro it _
        rfl
    · have h2 : check_stock_availability st.items cart ≠ [] := hins
      simp [checkout, hcart, h2]
  | editOp oid ops =>
    show ((edit_order st oid ops).1.items).map (·.id) = _
    unfold edit_order
    split
    · rfl
    · exact save_changes_items_ids _ oid _ _
  | statusOp oid s =>
    show ((update_status st oid s).items).map (·.id) = _
    rw [update_status_items]

/-! ## C3: stock stays non-negative across committed operation sequences -/

/-- Claim C3: starting from a state with non-negative stocks (and the
items table's primary-key uniqueness), every sequence of committed
checkout, order-edit and status-update operations — with each checkout
cart well-formed, as the UI's Python dict guarantees — leaves every item's
stock ≥ 0; since this holds for all sequences, it holds after each
operation commits. -/
theorem app_ops_stock_nonneg (l : List AppOp) :
    ∀ st : DBState, StocksNonneg st → NodupItemIds st → (∀ op ∈ l, WfOp op) →
      StocksNonneg (runApp st l) := by
  induction l with
  | nil =>
    intro st h _ _
    exact h
  | cons op rest ih =>
    intro st h hids hwf
    show StocksNonneg (rest.foldl applyAppOp (applyAppOp st op))
    apply ih
    · cases op with
      | checkoutOp cart cid now =>
        have hwc : WfCart cart := hwf (AppOp.checkoutOp cart cid now) (by simp)
        exact checkout_preserves_stock_nonneg st cart cid now h hids hwc
      | editOp oid ops => exact edit_order_preserves_stock st oid ops h hids
      | statusOp oid s =>
        intro it hit
        simp only [applyAppOp] at hit
        rw [update_status_items] at hit
        exact h it hit
    · unfold NodupItemIds
      rw [items_ids_applyAppOp]
      exact hids
    · intro op' hop'
      exact hwf op' (by simp [hop'])

/-- Witness for C3: a checkout, a status update and an edit in sequence on
a concrete state. -/
theorem app_ops_stock_nonneg_witness :
    StocksNonneg (runApp exSt3
      [.checkoutOp [(1, ⟨"A", 50, 2⟩)] 1 exNow, .statusOp 1 "Ready",
        .editOp 1 [.decQty 1]]) :=
  app_ops_stock_nonneg
    [.checkoutOp [(1, ⟨"A", 50, 2⟩)] 1 exNow, .statusOp 1 "Ready",
      .editOp 1 [.decQty 1]] exSt3 (by decide) (by decide) (by decide)

/-! ## C5: Completed orders are terminal -/

/-- Fetching an order by id commutes with any row-wise transformation
that preserves the id column. -/
theorem find?_orders_map (l : List Order) (f : Order → Order) (oid : Nat)
    (hf : ∀ o, (f o).id = o.id) :
    (l.map f).find? (fun o => o.id == oid) =
      (l.find? (fun o => o.id == oid)).map f := by
  rw [List.find?_map]
  have hpf : ((fun o : Order => o.id == oid) ∘ f) = fun o : Order => o.id == oid := by
    funext o
    simp [Function.comp, hf o]
  rw [hpf]

/-- The lazy code assignment either leaves the orders table unchanged or
rewrites only the code column of the target order's rows. -/
theorem ensure_order_code_snd (orders : List Order) (oid : Nat) :
    (ensure_order_code orders oid).2 = orders ∨
      (ensure_order_code orders oid).2 = orders.map fun o =>
        if o.id == oid then { o with code := some (freshOrderCode orders oid) } else o := by
  unfold ensure_order_code
  rcases hf : orders.find? (fun o => o.id == oid) with _ | r
  · rw [hf]
    right
    simp [ensureFreshOrderCode]
  · rw [hf]
    rcases hco : r.code with _ | c
    · right
      simp [hco, ensureFreshOrderCode]
    · by_cases hce : c = ""
      · right
        simp [hco, hce, ensureFreshOrderCode]
      · left
        simp [hco, hce]

/-- Fetching any order's status survives the lazy code assignment. -/
theorem find?_ensure_order_code (orders : List Order) (oid' oid : Nat) (o0 : Order)
    (h : orders.find? (fun o => o.id == oid) = some o0) :
    ∃ o1, ((ensure_order_code orders oid').2.find? (fun o => o.id == oid)) = some o1 ∧
      o1.status = o0.status ∧ o1.id = o0.id := by
  rcases ensure_order_code_snd orders oid' with he | he
  · rw [he]
    exact ⟨o0, h, rfl, rfl⟩
  · rw [he, find?_orders_map _ _ _ (fun o => by split <;> rfl), h]
    refine ⟨_, rfl, ?_, ?_⟩ <;> by_cases hb : (o0.id == oid') = true <;> simp [hb]

/-- Fetching any order's status survives checkout's commit statements:
the INSERT appends a fresh row after the existing ones and the code
assignment touches only the code column. -/
theorem find?_orders_foldl_ops (ops : List WriteOp) :
    ∀ (st : DBState) (oid : Nat) (o0 : Order),
      st.orders.find? (fun o => o.id == oid) = some o0 →
      ∃ o1, ((ops.foldl applyOp st).orders.find? (fun o => o.id == oid)) = some o1 ∧
        o1.status = o0.status := by
  induction ops with
  | nil =>
    intro st oid o0 h
    exact ⟨o0, h, rfl⟩
  | cons op rest ih =>
    intro st oid o0 h
    cases op with
    | insertOrder cid date total =>
      apply ih
      show (st.orders ++ [_]).find? (fun o => o.id == oid) = some o0
      rw [List.find?_append, h]
      rfl
    | ensureOrderCode oid' =>
      obtain ⟨o1, h1, hs1, _⟩ := find?_ensure_order_code st.orders oid' oid o0 h
      obtain ⟨o2, h2, hs2⟩ := ih { st with orders := (ensure_order_code st.orders oid').2 }
        oid o1 h1
      exact ⟨o2, h2, hs2.trans hs1⟩
    | insertLine oid2 iid q s => exact ih _ oid o0 h
    | decStock iid q => exact ih _ oid o0 h

/-- Saving an edit of one order does not move any other order's status. -/
theorem status_for_order_save_changes (st : DBState) (oid' : Nat)
    (orig : List (Nat × Nat)) (cart : Cart) (oid : Nat) (o0 : Order)
    (hne : oid' ≠ oid) (h : st.orders.find? (fun o => o.id == oid) = some o0)
    (hid : o0.id = oid) :
    status_for_order (save_changes st oid' orig cart).1 oid = o0.status := by
  unfold save_changes
  split
  · unfold status_for_order
    rw [h]
    rfl
  · show status_for_order
      ⟨_, st.orders.map fun o =>
        if o.id == oid' then { o with total := cartTotal cart, status := "Preparing" }
        else o, _⟩ oid = _
    unfold status_for_order
    rw [find?_orders_map _ _ _ (fun o => by split <;> rfl), h]
    have hbp : ¬o0.id = oid' := by
      rw [hid]
      exact fun hh => hne hh.symm
    simp [hbp]

/-- No single committed operation moves an order out of a normalized
Completed status. -/
theorem completed_preserved_applyAppOp (st : DBState) (oid : Nat) (op : AppOp)
    (hc : normalize_status (status_for_order st oid) = "Completed") :
    normalize_status (status_for_order (applyAppOp st op) oid) = "Completed" := by
  have hne : status_for_order st oid ≠ "" := by
    intro h
    rw [h] at hc
    exact absurd hc (by decide)
  obtain ⟨o0, ho0⟩ : ∃ o0, st.orders.find? (fun o => o.id == oid) = some o0 := by
    rcases hf : st.orders.find? (fun o => o.id == oid) with _ | r
    · exfalso
      apply hne
      unfold status_for_order
      rw [hf]
      rfl
    · exact ⟨r, hf⟩
  have hid : o0.id = oid := by
    simpa using List.find?_some (p := fun o : Order => o.id == oid) ho0
  have hstat : status_for_order st oid = o0.status := by
    unfold status_for_order
    rw [ho0]
    rfl
  cases op with
  | checkoutOp cart cid now =>
    show normalize_status (status_for_order (checkout st cart cid now none).1 oid) = _
    by_cases hcart : cart = []
    · simpa [checkout, hcart] using hc
    by_cases hins : check_stock_availability st.items cart = []
    · by_cases htot : cartTotal cart ≤ 0
      · have h2 : ¬(check_stock_availability st.items cart ≠ []) := by simp [hins]
        simpa [checkout, hcart, h2, htot] using hc
      · rw [checkout_commit_state st cart cid now none hcart hins (by omega)]
        obtain ⟨k, hk⟩ := runOps_prefix st (checkoutOps st cart cid now) none
        rw [hk]
        obtain ⟨o1, h1, hs1⟩ := find?_orders_foldl_ops
          ((checkoutOps st cart cid now).take k) st oid o0 ho0
        unfold status_for_order
        rw [h1]
        show normalize_status o1.status = _
        rw [hs1, ← hstat]
        exact hc
    · have h2 : check_stock_availability st.items cart ≠ [] := hins
      simpa [checkout, hcart, h2] using hc
  | editOp oid' ops =>
    show normalize_status (status_for_order (edit_order st oid' ops).1 oid) = _
    unfold edit_order
    split
    · exact hc
    case isFalse hlock =>
      by_cases hoid : oid' = oid
      · subst hoid
        exact absurd hc hlock
      · obtain ⟨o1, h1, hs1, hid1⟩ := find?_ensure_order_code st.orders oid' oid o0 ho0
        have hsave : ∀ (org : List (Nat × Nat)) (c : Cart),
            status_for_order (save_changes
              { st with orders := (ensure_order_code st.orders oid').2 } oid' org c).1
              oid = o1.status := fun org c =>
          status_for_order_save_changes _ oid' org c oid o1 hoid h1 (hid1.trans hid)
        rw [hsave, hs1, ← hstat]
        exact hc
  | statusOp oid' s =>
    show normalize_status (status_for_order (update_status st oid' s) oid) = _
    unfold update_status
    split
    · exact hc
    case isFalse hlock =>
      by_cases hoid : oid' = oid
      · subst hoid
        exact absurd hc hlock
      · unfold status_for_order
        rw [find?_orders_map _ _ _ (fun o => by split <;> rfl), ho0]
        have hbp : ¬o0.id = oid' := by
          rw [hid]
          exact fun hh => hoid hh.symm
        simpa [hbp, ← hstat] using hc

/-- Once Completed, any sequence of committed operations keeps the
normalized status Completed. -/
theorem completed_preserved_runApp (l : List AppOp) :
    ∀ (st : DBState) (oid : Nat),
      normalize_status (status_for_order st oid) = "Completed" →
      normalize_status (status_for_order (runApp st l) oid) = "Completed" := by
  induction l with
  | nil =>
    intro st oid h
    exact h
  | cons op rest ih =>
    intro st oid h
    show normalize_status
      (status_for_order (rest.foldl applyAppOp (applyAppOp st op)) oid) = _
    exact ih _ oid (completed_preserved_applyAppOp st oid op h)

/-- Claim C5: once an order's (normalized) status is Completed, a status
update is rejected leaving the state untouched, an order-edit call is
rejected with the LockedOrder failure leaving the state untouched, and no
sequence of committed operations ever moves the order out of Completed;
from any non-terminal status, an explicit update to any status in the
enum stores exactly that status. -/
theorem completed_orders_terminal (st : DBState) (oid : Nat) :
    (normalize_status (status_for_order st oid) = "Completed" →
      (∀ s, update_status st oid s = st) ∧
      (∀ ops, edit_order st oid ops = (st, .locked)) ∧
      (∀ l : List AppOp,
        normalize_status (status_for_order (runApp st l) oid) = "Completed")) ∧
    (normalize_status (status_for_order st oid) ≠ "Completed" →
      (∃ o ∈ st.orders, o.id = oid) →
      ∀ s ∈ STATUSES, status_for_order (update_status st oid s) oid = s) := by
  constructor
  · intro hc
    refine ⟨?_, ?_, ?_⟩
    · intro s
      simp [update_status, hc]
    · intro ops
      simp [edit_order, hc]
    · intro l
      exact completed_preserved_runApp l st oid hc
  · intro hc hex s _
    obtain ⟨o, hom, hoid⟩ := hex
    have hsome : (st.orders.find? (fun o => o.id == oid)).isSome :=
      List.find?_isSome.mpr ⟨o, hom, by simp [hoid]⟩
    obtain ⟨o0, ho0⟩ := Option.isSome_iff_exists.mp hsome
    have hid : o0.id = oid := by
      simpa using List.find?_some (p := fun o : Order => o.id == oid) ho0
    unfold update_status
    rw [if_neg hc]
    unfold status_for_order
    rw [find?_orders_map _ _ _ (fun o => by split <;> rfl), ho0]
    simp [hid]

/-- One item and a Completed one-line order over it. -/
def exSt4 : DBState :=
  { items := [⟨1, "A", 50, 4, some "ITM-00001"⟩],
    orders := [⟨1, 1, exNow, "Completed", 50, some "ORD-00001"⟩],
    orderLines := [⟨1, 1, 1, 50⟩] }

/-- Witness for C5: rejection of update and edit on a Completed order,
persistence of Completed under a further operation, and a free status
jump on a Pending order. -/
theorem completed_orders_terminal_witness :
    update_status exSt4 1 "Pending" = exSt4 ∧
      edit_order exSt4 1 [.incQty 1] = (exSt4, .locked) ∧
      normalize_status (status_for_order (runApp exSt4 [.statusOp 1 "Pending"]) 1) =
        "Completed" ∧
      status_for_order (update_status exSt3 1 "Ready") 1 = "Ready" :=
  ⟨((completed_orders_terminal exSt4 1).1 (by decide)).1 "Pending",
   ((completed_orders_terminal exSt4 1).1 (by decide)).2.1 [.incQty 1],
   ((completed_orders_terminal exSt4 1).1 (by decide)).2.2 [.statusOp 1 "Pending"],
   (completed_orders_terminal exSt3 1).2 (by decide)
     ⟨⟨1, 1, exNow, "Pending", 50, some "ORD-00001"⟩, by decide, rfl⟩ "Ready" (by decide)⟩

/-! ## C8: monthly report range -/

/-- Claim C8: `monthly_report` selects exactly the orders whose stored
timestamp lies in the half-open interval [first of the month, first of the
following month) — for December the end bound is January 1 of the next
year — and with a null month the interval is [Jan 1 of the year, Jan 1 of
the following year). -/
theorem monthly_report_range (st : DBState) (year : Nat) (o : Order) :
    (∀ m, 1 ≤ m → m ≤ 12 →
      (o ∈ (monthly_report st year (some m)).orders ↔
        o ∈ st.orders ∧ dtLe (month_start year m) o.date = true ∧
          dtLt o.date (if m = 12 then month_start (year + 1) 1
            else month_start year (m + 1)) = true)) ∧
    (o ∈ (monthly_report st year none).orders ↔
      o ∈ st.orders ∧ dtLe (month_start year 1) o.date = true ∧
        dtLt o.date (month_start (year + 1) 1) = true) := by
  constructor
  · intro m h1 h2
    have hm : m ≠ 0 := by omega
    simp [monthly_report, hm, List.mem_filter, Bool.and_eq_true, and_assoc]
  · simp [monthly_report, List.mem_filter, Bool.and_eq_true, and_assoc]

/-- Two orders, one inside March 2024 and one at the excluded end bound. -/
def exSt5 : DBState :=
  { items := [],
    orders := [⟨1, 1, ⟨2024, 3, 31, 23, 59, 59⟩, "Pending", 10, none⟩,
               ⟨2, 1, ⟨2024, 4, 1, 0, 0, 0⟩, "Ready", 20, none⟩],
    orderLines := [] }

/-- Witness for C8 at year 2024, month 3, and at the null month. -/
theorem monthly_report_range_witness :
    ((⟨1, 1, ⟨2024, 3, 31, 23, 59, 59⟩, "Pending", 10, none⟩ : Order) ∈
        (monthly_report exSt5 2024 (some 3)).orders ↔
      (⟨1, 1, ⟨2024, 3, 31, 23, 59, 59⟩, "Pending", 10, none⟩ : Order) ∈ exSt5.orders ∧
        dtLe (month_start 2024 3) ⟨2024, 3, 31, 23, 59, 59⟩ = true ∧
        dtLt (⟨2024, 3, 31, 23, 59, 59⟩ : DateTime)
          (if 3 = 12 then month_start (2024 + 1) 1 else month_start 2024 (3 + 1)) = true) ∧
    ((⟨1, 1, ⟨2024, 3, 31, 23, 59, 59⟩, "Pending", 10, none⟩ : Order) ∈
        (monthly_report exSt5 2024 none).orders ↔
      (⟨1, 1, ⟨2024, 3, 31, 23, 59, 59⟩, "Pending", 10, none⟩ : Order) ∈ exSt5.orders ∧
        dtLe (month_start 2024 1) ⟨2024, 3, 31, 23, 59, 59⟩ = true ∧
        dtLt (⟨2024, 3, 31, 23, 59, 59⟩ : DateTime) (month_start (2024 + 1) 1) = true) :=
  ⟨(monthly_report_range exSt5 2024 ⟨1, 1, ⟨2024, 3, 31, 23, 59, 59⟩, "Pending", 10, none⟩).1
      3 (by decide) (by decide),
   (monthly_report_range exSt5 2024 ⟨1, 1, ⟨2024, 3, 31, 23, 59, 59⟩, "Pending", 10, none⟩).2⟩

end RenusPOS
